import Mathlib

/-!
# Verification of go-edgar filing-pipeline properties

A shallow embedding, in Lean 4, of the parts of the `edgar` Go package that
the specified properties talk about: form-type matching and date filtering
of index filings, Schedule 13 aggregation, submissions-index column zipping,
XBRL numeric scaling, the financial-snapshot required-field validation, the
text normalizer, the Form 4 10b5-1 remarks gate, and the (spec-modelled)
list-only batch mode.

Go strings are embedded as `List Char` (Go iterates runes; all comparisons
used by this code are code-point-wise, which agrees with Go's byte-wise
comparison on UTF-8 because UTF-8 is order-preserving).  Go `float64`
values that the verified code only parses, compares and multiplies are
embedded as exact rationals `ℚ`; Go `int64` as `Int`.
-/

namespace Edgar

/-- The characters of a Lean string literal, used to write Go string
literals as `List Char` values. -/
def chars (s : String) : List Char := s.data

/-- Go `unicode.IsSpace`: Unicode white space (the set used by
`strings.TrimSpace`). -/
def isGoSpace (c : Char) : Bool :=
  c = ' ' || c = '\t' || c = '\n' || (c.val = 11) || (c.val = 12) || c = '\r' ||
  c.val = 0x85 || c.val = 0xA0 || c.val = 0x1680 ||
  (0x2000 ≤ c.val && c.val ≤ 0x200A) ||
  c.val = 0x2028 || c.val = 0x2029 || c.val = 0x202F || c.val = 0x205F ||
  c.val = 0x3000

/-- Go `strings.TrimSpace` on the rune level. -/
def trimSpaceGo (s : List Char) : List Char :=
  ((s.dropWhile isGoSpace).reverse.dropWhile isGoSpace).reverse

/-- Go string comparison `a <= b`: lexicographic on the code points
(equal to Go's byte-wise comparison, since UTF-8 preserves order). -/
def goLe : List Char → List Char → Bool
  | [], _ => true
  | _ :: _, [] => false
  | a :: as, b :: bs =>
    if a.val < b.val then true
    else if b.val < a.val then false
    else goLe as bs

theorem goLe_nil_left (s : List Char) : goLe [] s = true := by
  cases s <;> rfl

theorem goLe_nil_right (s : List Char) : goLe s [] = s.isEmpty := by
  cases s <;> rfl

/-! ## Filing filter: form-type matching (unnamed/part_011, `normalizeFormType`,
`matchesFormType`) -/

/-- `normalizeFormType` (part_011:273-297): converts user-friendly form names
to SEC form names, prefixing `SC ` onto bare Schedule 13 requests. -/
def normalizeFormType (formType : List Char) : List Char :=
  let ft := trimSpaceGo formType
  if (chars "SC ").isPrefixOf ft then ft
  else if ft = chars "13D" ∨ ft = chars "13G" then chars "SC " ++ ft
  else if (chars "13D/").isPrefixOf ft then chars "SC " ++ ft
  else if (chars "13G/").isPrefixOf ft then chars "SC " ++ ft
  else ft

/-- `matchesFormType` (part_011:239-265): does a filing's form type match the
requested form type, with the `"13"` wildcard and Schedule 13 amendment
folding. -/
def matchesFormType (filingForm requestedForm : List Char) : Bool :=
  let normalizedRequest := normalizeFormType requestedForm
  if requestedForm = chars "13" then
    (chars "SC 13D").isPrefixOf filingForm || (chars "SC 13G").isPrefixOf filingForm
  else if filingForm = normalizedRequest then
    true
  else
    let isSchedule13Request := (chars "SC 13").isPrefixOf normalizedRequest
    if isSchedule13Request then
      (normalizedRequest ++ chars "/").isPrefixOf filingForm
    else
      false

/-- C5: the literal request `"13"` matches exactly the filing forms starting
with `SC 13D` or `SC 13G`; a request whose normalized form starts with
`SC 13` matches exactly the filing forms equal to the normalized request or
extending it with `/`; and the request `"4"` matches only the exact form
`"4"` (never `4/A`). -/
theorem matchesFormType_spec (f req : List Char) :
    (matchesFormType f (chars "13") =
      ((chars "SC 13D").isPrefixOf f || (chars "SC 13G").isPrefixOf f))
    ∧ ((chars "SC 13").isPrefixOf (normalizeFormType req) = true →
        (matchesFormType f req = true ↔
          f = normalizeFormType req ∨
            (normalizeFormType req ++ chars "/").isPrefixOf f = true))
    ∧ (matchesFormType f (chars "4") = decide (f = chars "4")) := by
  refine ⟨by simp [matchesFormType], ?_, ?_⟩
  · intro hpre
    by_cases h13 : req = chars "13"
    · rw [h13, show normalizeFormType (chars "13") = chars "13" from by decide]
        at hpre
      exact absurd hpre (by decide)
    · by_cases hf : f = normalizeFormType req
      · simp [matchesFormType, h13, hf]
      · simp [matchesFormType, h13, hf, hpre]
  · have h4 : normalizeFormType (chars "4") = chars "4" := by decide
    by_cases hf : f = chars "4" <;>
      simp [matchesFormType, h4, hf, show ¬(chars "4" = chars "13") from by decide,
        show ¬(chars "SC 13" <+: chars "4") from by decide]

/-- Witness for `matchesFormType_spec`: instantiated at the amendment filing
form `SC 13D/A` and the request `13D`, whose normalization `SC 13D` starts
with `SC 13`. -/
theorem matchesFormType_spec_witness :
    (chars "SC 13").isPrefixOf (normalizeFormType (chars "13D")) = true ∧
      (matchesFormType (chars "SC 13D/A") (chars "13D") = true ↔
        chars "SC 13D/A" = normalizeFormType (chars "13D") ∨
          (normalizeFormType (chars "13D") ++ chars "/").isPrefixOf
            (chars "SC 13D/A") = true) :=
  ⟨by decide, (matchesFormType_spec (chars "SC 13D/A") (chars "13D")).2.1 (by decide)⟩

/-! ## Submissions index: `Filing`, `GetFilings`, `BuildURL`,
`FilterByDateRange` (unnamed/part_011) -/

/-- `Filing` (part_011:64-82): one filing row of the submissions index, with
the derived CIK and URL fields. -/
structure Filing where
  accessionNumber : List Char
  filingDate : List Char
  reportDate : List Char
  acceptanceDateTime : List Char
  act : List Char
  form : List Char
  fileNumber : List Char
  filmNumber : List Char
  items : List Char
  size : Int
  isXBRL : Bool
  isInlineXBRL : Bool
  primaryDocument : List Char
  primaryDocDescription : List Char
  cik : List Char
  url : List Char
  deriving DecidableEq

/-- The zero `Filing` (Go's zero value of the struct). -/
def defaultFiling : Filing :=
  ⟨[], [], [], [], [], [], [], [], [], 0, false, false, [], [], [], []⟩

/-- `FilterByDateRange` (part_011:301-310): keep the filings whose
`FilingDate` satisfies `from <= d && d <= to` under Go string comparison. -/
def FilterByDateRange : List Filing → List Char → List Char → List Filing
  | [], _, _ => []
  | f :: rest, fromDate, toDate =>
    if goLe fromDate f.filingDate && goLe f.filingDate toDate then
      f :: FilterByDateRange rest fromDate toDate
    else
      FilterByDateRange rest fromDate toDate

theorem filterByDateRange_eq_filter (filings : List Filing)
    (fromDate toDate : List Char) :
    FilterByDateRange filings fromDate toDate =
      filings.filter (fun f => goLe fromDate f.filingDate && goLe f.filingDate toDate) := by
  induction filings with
  | nil => rfl
  | cons f rest ih =>
    by_cases h : (goLe fromDate f.filingDate && goLe f.filingDate toDate) = true <;>
      simp [FilterByDateRange, h, ih]

/-- C6 (amended): the date filter keeps exactly the filings whose filing
date lies between the endpoints inclusively under Go string comparison; an
empty `from` endpoint imposes no bound, but an empty `to` endpoint keeps
only filings whose filing date is itself the empty string (the batch
orchestrator substitutes `1900-01-01`/`2099-12-31` before calling it to
obtain unbounded behavior). -/
theorem filterByDateRange_endpoints (filings : List Filing)
    (fromDate toDate : List Char) :
    (FilterByDateRange filings fromDate toDate =
      filings.filter (fun f => goLe fromDate f.filingDate && goLe f.filingDate toDate))
    ∧ (FilterByDateRange filings [] toDate =
        filings.filter (fun f => goLe f.filingDate toDate))
    ∧ (FilterByDateRange filings fromDate [] =
        filings.filter (fun f => goLe fromDate f.filingDate && f.filingDate.isEmpty)) := by
  refine ⟨filterByDateRange_eq_filter .., ?_, ?_⟩ <;>
    simp [filterByDateRange_eq_filter, goLe_nil_left, goLe_nil_right]

/-- A filing dated 2025-01-01, as in the submissions index of any recent
filer. -/
def sampleFiling2025 : Filing := { defaultFiling with filingDate := chars "2025-01-01" }

/-- C6 counterexample: with an empty `to` endpoint the filter drops a filing
dated `2025-01-01` even though it satisfies the `from` endpoint
(`2020-01-01 <= 2025-01-01`), so an empty `to` endpoint does *not* mean
"no upper bound" at the `FilterByDateRange` level. -/
theorem filterByDateRange_empty_to_cex :
    FilterByDateRange [sampleFiling2025] (chars "2020-01-01") [] = [] ∧
      goLe (chars "2020-01-01") sampleFiling2025.filingDate = true := by
  constructor <;> decide

/-! ## Generic lemmas about the Go `max`-accumulation and sum loops -/

section FoldLemmas

variable {α : Type} {β : Type} [LinearOrder β] (g : α → β)

/-- The Go loop `if acc < g p { acc = g p }` never decreases its
accumulator. -/
theorem init_le_foldl_pickMax (l : List α) (init : β) :
    init ≤ l.foldl (fun m p => if m < g p then g p else m) init := by
  induction l generalizing init with
  | nil => exact le_refl _
  | cons a as ih =>
    refine le_trans ?_ (ih _)
    by_cases h : init < g a <;> simp [h, le_of_lt]

theorem mem_le_foldl_pickMax (l : List α) (init : β) (x : α) (hx : x ∈ l) :
    g x ≤ l.foldl (fun m p => if m < g p then g p else m) init := by
  induction l generalizing init with
  | nil => cases hx
  | cons a as ih =>
    rcases List.mem_cons.1 hx with rfl | hx'
    · refine le_trans ?_ (init_le_foldl_pickMax g as _)
      by_cases h : init < g x
      · simp [h]
      · simp [h]
        exact le_of_not_lt h
    · exact ih _ hx'

theorem foldl_pickMax_eq_init_or_mem (l : List α) (init : β) :
    l.foldl (fun m p => if m < g p then g p else m) init = init ∨
      ∃ x ∈ l, l.foldl (fun m p => if m < g p then g p else m) init = g x := by
  induction l generalizing init with
  | nil => exact Or.inl rfl
  | cons a as ih =>
    rw [List.foldl_cons]
    by_cases ha : init < g a
    · rw [if_pos ha]
      rcases ih (g a) with h | ⟨x, hx, h⟩
      · exact Or.inr ⟨a, List.mem_cons_self .., h⟩
      · exact Or.inr ⟨x, List.mem_cons_of_mem _ hx, h⟩
    · rw [if_neg ha]
      rcases ih init with h | ⟨x, hx, h⟩
      · exact Or.inl h
      · exact Or.inr ⟨x, List.mem_cons_of_mem _ hx, h⟩

/-- The Go accumulation loop `acc += g p` computes the sum. -/
theorem foldl_add_eq_sum (h : α → Int) (l : List α) (init : Int) :
    l.foldl (fun t p => t + h p) init = init + (l.map h).sum := by
  induction l generalizing init with
  | nil => simp
  | cons a as ih => simp [ih, add_assoc]

end FoldLemmas

/-! ## Schedule 13 aggregation (unnamed/part_008, `CalculateTotalShares`,
`CalculateTotalPercent`) -/

/-- `ReportingPerson13` (part_008): the fields consumed by the aggregation
functions.  (The Go struct carries further text fields — CIK, citizenship,
voting/dispositive powers, comments — that the verified functions never
read; they are omitted from the embedding.)  `AggregateAmountOwned` is a Go
`int64`, `PercentOfClass` a `float64`; the aggregation functions only
compare and select these values, so the embedding uses `Int` and exact
rationals. -/
structure ReportingPerson13 where
  name : List Char
  memberOfGroup : List Char
  isAggregateExclude : Bool
  aggregateAmountOwned : Int
  percentOfClass : ℚ
  deriving DecidableEq

/-- `Schedule13Filing` restricted to the fields the aggregation reads. -/
structure Schedule13Filing where
  formType : List Char
  reportingPersons : List ReportingPerson13
  deriving DecidableEq

/-- The `included` local of `CalculateTotalShares`: persons whose
aggregate-exclude flag is unset. -/
def includedPersons (s : Schedule13Filing) : List ReportingPerson13 :=
  s.reportingPersons.filter (fun p => !p.isAggregateExclude)

/-- The `groupMembers` local of `CalculateTotalShares`: included persons
with `MemberOfGroup == "a"`. -/
def groupAPersons (s : Schedule13Filing) : List ReportingPerson13 :=
  (includedPersons s).filter (fun p => p.memberOfGroup = chars "a")

/-- `CalculateTotalShares` (part_008:292-326): max over the joint-filer
group when one exists, otherwise the sum over included persons. -/
def CalculateTotalShares (s : Schedule13Filing) : Int :=
  if 0 < (groupAPersons s).length then
    (groupAPersons s).foldl
      (fun m p => if m < p.aggregateAmountOwned then p.aggregateAmountOwned else m) 0
  else
    (includedPersons s).foldl (fun t p => t + p.aggregateAmountOwned) 0

/-- `CalculateTotalPercent` (part_008:329-337): the running-maximum loop
over *all* reporting persons (the aggregate-exclude flag is not consulted
here). -/
def CalculateTotalPercent (s : Schedule13Filing) : ℚ :=
  s.reportingPersons.foldl
    (fun m p => if m < p.percentOfClass then p.percentOfClass else m) 0

/-- C2: on share counts that are non-negative (every parsed Schedule 13
share count is), `CalculateTotalShares` returns the maximum
aggregate-amount-owned over the included `"a"`-group members when at least
one exists — a value attained by some group member and dominating all of
them, never exceeding the sum over included persons — and otherwise the sum
over included persons. -/
theorem calculateTotalShares_spec (s : Schedule13Filing)
    (hnn : ∀ p ∈ s.reportingPersons, 0 ≤ p.aggregateAmountOwned) :
    (groupAPersons s ≠ [] →
      (∃ p ∈ groupAPersons s, CalculateTotalShares s = p.aggregateAmountOwned) ∧
        (∀ p ∈ groupAPersons s, p.aggregateAmountOwned ≤ CalculateTotalShares s) ∧
        CalculateTotalShares s ≤
          ((includedPersons s).map (·.aggregateAmountOwned)).sum) ∧
    (groupAPersons s = [] →
      CalculateTotalShares s = ((includedPersons s).map (·.aggregateAmountOwned)).sum) := by
  have hincl : ∀ p ∈ includedPersons s, 0 ≤ p.aggregateAmountOwned := by
    intro p hp
    exact hnn p (List.mem_of_mem_filter hp)
  have hgrp_incl : ∀ p ∈ groupAPersons s, p ∈ includedPersons s := by
    intro p hp
    exact List.mem_of_mem_filter hp
  constructor
  · intro hne
    have hlen : 0 < (groupAPersons s).length := List.length_pos.2 hne
    have hval : CalculateTotalShares s =
        (groupAPersons s).foldl
          (fun m p => if m < p.aggregateAmountOwned then p.aggregateAmountOwned else m) 0 := by
      simp [CalculateTotalShares, hlen]
    have hex : ∃ p ∈ groupAPersons s,
        CalculateTotalShares s = p.aggregateAmountOwned := by
      rcases foldl_pickMax_eq_init_or_mem (·.aggregateAmountOwned)
          (groupAPersons s) 0 with h0 | ⟨p, hp, hp'⟩
      · rcases List.exists_mem_of_ne_nil _ hne with ⟨p, hp⟩
        refine ⟨p, hp, le_antisymm ?_ ?_⟩
        · rw [hval, h0]
          exact hincl p (hgrp_incl p hp)
        · rw [hval]
          exact mem_le_foldl_pickMax _ _ _ p hp
      · exact ⟨p, hp, hval.trans hp'⟩
    refine ⟨hex, ?_, ?_⟩
    · intro p hp
      rw [hval]
      exact mem_le_foldl_pickMax _ _ _ p hp
    · rcases hex with ⟨p, hp, hp'⟩
      rw [hp']
      have : p.aggregateAmountOwned ∈
          (includedPersons s).map (·.aggregateAmountOwned) :=
        List.mem_map_of_mem _ (hgrp_incl p hp)
      refine List.single_le_sum ?_ _ this
      intro x hx
      rcases List.mem_map.1 hx with ⟨q, hq, rfl⟩
      exact hincl q hq
  · intro hnil
    have hlen : ¬0 < (groupAPersons s).length := by simp [hnil]
    simp [CalculateTotalShares, hlen, foldl_add_eq_sum]

/-- Scenario: a joint-filer Schedule 13G with two group-`"a"` persons each
reporting the same 10,000,000-share position. -/
def jointFiling : Schedule13Filing :=
  ⟨chars "SC 13G",
    [⟨chars "Fund GP LLC", chars "a", false, 10000000, 51 / 10⟩,
     ⟨chars "Fund LP", chars "a", false, 10000000, 51 / 10⟩]⟩

/-- Witness for `calculateTotalShares_spec` at the joint-filer scenario. -/
theorem calculateTotalShares_spec_witness :
    (∀ p ∈ jointFiling.reportingPersons, 0 ≤ p.aggregateAmountOwned) ∧
      CalculateTotalShares jointFiling ≤
        ((includedPersons jointFiling).map (·.aggregateAmountOwned)).sum :=
  ⟨by decide,
    ((calculateTotalShares_spec jointFiling (by decide)).1 (by decide)).2.2⟩

/-- The percent rollup as claim C10 words it: the maximum percent-of-class
over the persons whose aggregate-exclude flag is false (this is *not* what
`CalculateTotalPercent` computes; it is stated here only for comparison). -/
def claim10TotalPercent (s : Schedule13Filing) : ℚ :=
  (includedPersons s).foldl
    (fun m p => if m < p.percentOfClass then p.percentOfClass else m) 0

/-- A filing with an aggregate-excluded person at 7% and an included person
at 5%. -/
def c10Filing : Schedule13Filing :=
  ⟨chars "SC 13D",
    [⟨chars "Excluded Advisor", chars "", true, 0, 7⟩,
     ⟨chars "Included Holder", chars "", false, 12345, 5⟩]⟩

/-- C10 counterexample: `CalculateTotalPercent` does not skip
aggregate-excluded persons — it returns the excluded person's 7 rather
than the maximum 5 over included persons. -/
theorem calculateTotalPercent_cex :
    CalculateTotalPercent c10Filing = 7 ∧
      claim10TotalPercent c10Filing = 5 ∧ (7 : ℚ) ≠ 5 := by
  refine ⟨by decide, by decide, by decide⟩

/-- C10 (amended): `CalculateTotalPercent` is the maximum percent-of-class
over *all* reporting persons — excluded ones included — floored at 0: it
dominates every person's percent, is non-negative, and is either 0 or some
person's percent. -/
theorem calculateTotalPercent_amended (s : Schedule13Filing) :
    (∀ p ∈ s.reportingPersons, p.percentOfClass ≤ CalculateTotalPercent s) ∧
      0 ≤ CalculateTotalPercent s ∧
      (CalculateTotalPercent s = 0 ∨
        ∃ p ∈ s.reportingPersons, CalculateTotalPercent s = p.percentOfClass) := by
  refine ⟨?_, ?_, ?_⟩
  · intro p hp
    exact mem_le_foldl_pickMax _ _ _ p hp
  · exact init_le_foldl_pickMax _ _ _
  · exact foldl_pickMax_eq_init_or_mem _ _ _

/-- `FilingArrays` (part_011:46-61): the parallel column arrays of the
`recent` section of a submissions index.  (`Size`, `IsXBRL` and
`IsInlineXBRL` are `[]int` in Go.) -/
structure FilingArrays where
  accessionNumber : List (List Char)
  filingDate : List (List Char)
  reportDate : List (List Char)
  acceptanceDateTime : List (List Char)
  act : List (List Char)
  form : List (List Char)
  fileNumber : List (List Char)
  filmNumber : List (List Char)
  items : List (List Char)
  size : List Int
  isXBRL : List Int
  isInlineXBRL : List Int
  primaryDocument : List (List Char)
  primaryDocDescription : List (List Char)
  deriving DecidableEq

/-- The last segment of `strings.Split(doc, "/")`. -/
def afterLastSlash (l : List Char) : List Char :=
  l.foldl (fun acc c => if c = '/' then [] else acc ++ [c]) []

/-- `BuildURL` (part_011:187-206): the canonical EDGAR document URL.
`strings.ReplaceAll(acc, "-", "")` removes every dash;
`strings.TrimLeft(cik, "0")` drops leading zeros. -/
def BuildURL (f : Filing) : List Char :=
  let accessionPath := f.accessionNumber.filter (fun c => c ≠ '-')
  let doc :=
    if f.primaryDocument.contains '/' then afterLastSlash f.primaryDocument
    else f.primaryDocument
  chars "https://www.sec.gov/Archives/edgar/data/" ++
    f.cik.dropWhile (fun c => c = '0') ++ chars "/" ++ accessionPath ++
    chars "/" ++ doc

/-- Option-valued traversal used to embed the Go `for i` loop: the loop
body either produces a value or panics (`none`), and a panic aborts the
whole conversion. -/
def traverseOpt {α β : Type} (g : α → Option β) : List α → Option (List β)
  | [] => some []
  | a :: as => do
    let b ← g a
    let bs ← traverseOpt g as
    some (b :: bs)

/-- The body of the `GetFilings` loop (part_011:136-181) at index `i`.
The Go code indexes `FilingDate[i]`, `Form[i]` and `PrimaryDocument[i]`
*without* a bounds check (a Go index-out-of-range panic, embedded as
`none`), while the other ten columns are guarded by `if i < len(col)` and
fall back to the zero value; those are embedded with `(col[i]?).getD`. -/
def filingAt (fa : FilingArrays) (cik : List Char) (i : ℕ) : Option Filing := do
  let acc ← fa.accessionNumber[i]?
  let fd ← fa.filingDate[i]?
  let form ← fa.form[i]?
  let pd ← fa.primaryDocument[i]?
  let base : Filing :=
    { accessionNumber := acc
      filingDate := fd
      reportDate := (fa.reportDate[i]?).getD []
      acceptanceDateTime := (fa.acceptanceDateTime[i]?).getD []
      act := (fa.act[i]?).getD []
      form := form
      fileNumber := (fa.fileNumber[i]?).getD []
      filmNumber := (fa.filmNumber[i]?).getD []
      items := (fa.items[i]?).getD []
      size := (fa.size[i]?).getD (0 : Int)
      isXBRL := (fa.isXBRL[i]?).getD (0 : Int) ≠ 0
      isInlineXBRL := (fa.isInlineXBRL[i]?).getD (0 : Int) ≠ 0
      primaryDocument := pd
      primaryDocDescription := (fa.primaryDocDescription[i]?).getD []
      cik := cik
      url := [] }
  some { base with url := BuildURL base }

/-- `GetFilings` (part_011:132-184): zip the column arrays index-by-index
for `i` from 0 below `len(AccessionNumber)`. -/
def GetFilings (fa : FilingArrays) (cik : List Char) : Option (List Filing) :=
  traverseOpt (filingAt fa cik) (List.range fa.accessionNumber.length)

/-- `traverseOpt` succeeds, and yields the pointwise values, when every
entry succeeds. -/
theorem traverseOpt_eq_map_of_isSome {α β : Type} (g : α → Option β) (d : β) :
    ∀ l : List α, (∀ a ∈ l, (g a).isSome) →
      traverseOpt g l = some (l.map (fun a => (g a).getD d)) := by
  intro l
  induction l with
  | nil => intro _; rfl
  | cons a as ih =>
    intro h
    obtain ⟨b, hb⟩ := Option.isSome_iff_exists.1 (h a (List.mem_cons_self ..))
    have ih' := ih (fun x hx => h x (List.mem_cons_of_mem _ hx))
    simp [traverseOpt, hb, ih', Option.getD]

/-- A recent-filings block whose `filingDate` column is shorter than its
`accessionNumber` column. -/
def raggedArrays : FilingArrays :=
  ⟨[chars "0001-25-000001"], [], [], [], [], [chars "4"], [], [], [], [],
    [], [], [chars "doc4.xml"], []⟩

/-- C3 counterexample: with one accession number but an empty `filingDate`
column, `GetFilings` hits the unguarded `fa.FilingDate[i]` index and panics
(embedded: returns `none`) instead of treating the missing entry as an
optional field. -/
theorem getFilings_ragged_cex :
    GetFilings raggedArrays (chars "123") = none ∧
      raggedArrays.accessionNumber.length = 1 ∧
      raggedArrays.filingDate.length = 0 := by
  refine ⟨by decide, by decide, by decide⟩

/-- C3 (amended): provided the three *required* columns — `filingDate`,
`form` and `primaryDocument` — are at least as long as `accessionNumber`,
`GetFilings` succeeds for every index below the accession-number count,
and any of the ten *optional* columns that is shorter yields the zero value
(shown here for `reportDate`). -/
theorem getFilings_total (fa : FilingArrays) (cik : List Char)
    (hfd : fa.accessionNumber.length ≤ fa.filingDate.length)
    (hform : fa.accessionNumber.length ≤ fa.form.length)
    (hpd : fa.accessionNumber.length ≤ fa.primaryDocument.length) :
    ∃ l, GetFilings fa cik = some l ∧
      l.length = fa.accessionNumber.length ∧
      ∀ i, fa.reportDate.length ≤ i →
        (l.getD i defaultFiling).reportDate = [] := by
  have hsome : ∀ i ∈ List.range fa.accessionNumber.length,
      (filingAt fa cik i).isSome := by
    intro i hi
    have hi' := List.mem_range.1 hi
    rw [filingAt, List.getElem?_eq_getElem hi',
      List.getElem?_eq_getElem (lt_of_lt_of_le hi' hfd),
      List.getElem?_eq_getElem (lt_of_lt_of_le hi' hform),
      List.getElem?_eq_getElem (lt_of_lt_of_le hi' hpd)]
    rfl
  have key := traverseOpt_eq_map_of_isSome (filingAt fa cik) defaultFiling _ hsome
  refine ⟨_, key, by simp, ?_⟩
  intro i hrep
  by_cases hi : i < fa.accessionNumber.length
  · have hmap : ((List.range fa.accessionNumber.length).map
        (fun a => (filingAt fa cik a).getD defaultFiling)).getD i defaultFiling =
        (filingAt fa cik i).getD defaultFiling := by
      rw [List.getD_eq_getElem?_getD, List.getElem?_map,
        List.getElem?_range hi]
      rfl
    rw [hmap, filingAt, List.getElem?_eq_getElem hi,
      List.getElem?_eq_getElem (lt_of_lt_of_le hi hfd),
      List.getElem?_eq_getElem (lt_of_lt_of_le hi hform),
      List.getElem?_eq_getElem (lt_of_lt_of_le hi hpd),
      List.getElem?_eq_none hrep]
    rfl
  · rw [List.getD_eq_getElem?_getD, List.getElem?_eq_none (by simpa using not_lt.1 hi)]
    rfl

/-- A well-formed two-column block (optional columns partially missing). -/
def okArrays : FilingArrays :=
  ⟨[chars "0001-25-000001", chars "0001-25-000002"],
    [chars "2025-01-02", chars "2025-02-03"], [chars "2025-01-01"], [], [],
    [chars "4", chars "4/A"], [], [], [], [1024], [1], [],
    [chars "xslF345X05/doc4.xml", chars "doc5.xml"], []⟩

/-- Witness for `getFilings_total` at `okArrays`, whose required columns
are full-length. -/
theorem getFilings_total_witness :
    okArrays.accessionNumber.length ≤ okArrays.filingDate.length ∧
      okArrays.accessionNumber.length ≤ okArrays.form.length ∧
      okArrays.accessionNumber.length ≤ okArrays.primaryDocument.length ∧
      ∃ l, GetFilings okArrays (chars "1234") = some l ∧
        l.length = okArrays.accessionNumber.length ∧
        ∀ i, okArrays.reportDate.length ≤ i →
          (l.getD i defaultFiling).reportDate = [] :=
  ⟨by decide, by decide, by decide,
    getFilings_total okArrays (chars "1234") (by decide) (by decide) (by decide)⟩

/-! ## XBRL numeric scaling (xbrl.go, `parseNumericValue`) -/

/-- The value of a run of decimal digit characters. -/
def digitsToNat (ds : List Char) : ℕ :=
  ds.foldl (fun n c => 10 * n + (c.toNat - '0'.toNat)) 0

/-- The decimal decomposition recognized by `strconv.ParseFloat`: sign,
integer digits, fraction digits, decimal exponent. -/
structure FloatParts where
  neg : Bool
  intVal : ℕ
  fracVal : ℕ
  fracLen : ℕ
  exp : Int
  deriving DecidableEq

/-- The exact rational value of a decimal decomposition. -/
def floatPartsValue (p : FloatParts) : ℚ :=
  (if p.neg then -1 else 1) *
    ((p.intVal : ℚ) + (p.fracVal : ℚ) / (10 : ℚ) ^ p.fracLen) *
    (10 : ℚ) ^ p.exp

/-- The decimal grammar of Go's `strconv.ParseFloat`: optional sign, digits
with an optional fraction (at least one digit overall), and an optional
`e`/`E` exponent; nothing may trail the number.  (The hex-float,
`Inf`/`NaN` and digit-underscore forms of `ParseFloat` are outside the
values XBRL facts carry and are not modelled — they are rejected here.) -/
def parseFloatParts (s : List Char) : Option FloatParts :=
  let sgnRest : Bool × List Char :=
    match s with
    | '+' :: rest => (false, rest)
    | '-' :: rest => (true, rest)
    | _ => (false, s)
  let s1 := sgnRest.2
  let intDs := s1.takeWhile Char.isDigit
  let r1 := s1.drop intDs.length
  let fracRest : List Char × List Char :=
    match r1 with
    | '.' :: rest =>
      (rest.takeWhile Char.isDigit, rest.drop (rest.takeWhile Char.isDigit).length)
    | _ => ([], r1)
  let fracDs := fracRest.1
  if intDs.isEmpty && fracDs.isEmpty then none
  else
    match fracRest.2 with
    | [] => some ⟨sgnRest.1, digitsToNat intDs, digitsToNat fracDs, fracDs.length, 0⟩
    | e :: rest =>
      if e = 'e' ∨ e = 'E' then
        let esgnRest : Int × List Char :=
          match rest with
          | '+' :: r => (1, r)
          | '-' :: r => (-1, r)
          | _ => (1, rest)
        let eDs := esgnRest.2.takeWhile Char.isDigit
        if eDs.isEmpty then none
        else if (esgnRest.2.drop eDs.length).isEmpty then
          some ⟨sgnRest.1, digitsToNat intDs, digitsToNat fracDs, fracDs.length,
            esgnRest.1 * (digitsToNat eDs : Int)⟩
        else none
      else none

/-- Model of `strconv.ParseFloat(s, 64)` returning the exact decimal value
(the embedding works in `ℚ`, so the float64 rounding step is the
identity). -/
def parseFloatGo (s : List Char) : Option ℚ :=
  (parseFloatParts s).map floatPartsValue

/-- `parseNumericValue` (xbrl.go:177-206): strip commas and surrounding
whitespace, reject the empty/`-`/`—` sentinels, parse, then scale by the
loop `for i := 0; i < -decimals; i++ { scale *= 10 }` when `decimals` is
negative. -/
def parseNumericValue (value : List Char) (decimals : Int) : Option ℚ :=
  let cleaned := trimSpaceGo (value.filter (fun c => c ≠ ','))
  if cleaned = [] ∨ cleaned = chars "-" ∨ cleaned = chars "—" then none
  else
    match parseFloatGo cleaned with
    | none => none
    | some val =>
      if decimals < 0 then
        some (val * (List.range (-decimals).toNat).foldl (fun sc _ => sc * 10) (1 : ℚ))
      else
        some val

/-- The Go scaling loop computes `10 ^ k`. -/
theorem foldl_mul_ten (k : ℕ) :
    (List.range k).foldl (fun sc _ => sc * 10) (1 : ℚ) = 10 ^ k := by
  induction k with
  | zero => rfl
  | succ n ih => rw [List.range_succ, List.foldl_append, ih, List.foldl_cons,
      List.foldl_nil, pow_succ]

/-- C4: whenever the cleaned raw value parses as a number `q`, a decimals
attribute `-k` with `k > 0` yields the cached numeric value `q * 10 ^ k`,
and a non-negative decimals attribute (which is what an `INF` attribute is
stored as, see xbrl.go:124-129) yields `q` unscaled. -/
theorem parseNumericValue_spec (value : List Char) (d : Int) (q : ℚ)
    (hq : parseFloatGo (trimSpaceGo (value.filter (fun c => c ≠ ','))) = some q) :
    (∀ k : ℕ, 0 < k → d = -(k : Int) →
      parseNumericValue value d = some (q * 10 ^ k)) ∧
    (0 ≤ d → parseNumericValue value d = some q) := by
  have hsent : ¬(trimSpaceGo (value.filter (fun c => c ≠ ',')) = [] ∨
      trimSpaceGo (value.filter (fun c => c ≠ ',')) = chars "-" ∨
      trimSpaceGo (value.filter (fun c => c ≠ ',')) = chars "—") := by
    rintro (h | h | h) <;> rw [h] at hq <;>
      simp [show parseFloatGo [] = none from rfl,
        show parseFloatGo (chars "-") = none from rfl,
        show parseFloatGo (chars "—") = none from rfl] at hq
  constructor
  · intro k hk hd
    have hdlt : d < 0 := by omega
    rw [parseNumericValue]
    simp only [if_neg hsent, hq, if_pos hdlt]
    rw [show (-d).toNat = k by omega, foldl_mul_ten]
  · intro hd
    have hdlt : ¬d < 0 := not_lt.2 hd
    rw [parseNumericValue]
    simp only [if_neg hsent, hq, if_neg hdlt]

/-- Witness for `parseNumericValue_spec`: the raw value `" 1,234 "` with
`decimals = -3` scales to `1234 * 10 ^ 3`, and with `decimals = 0` stays
`1234`. -/
theorem parseNumericValue_spec_witness :
    parseFloatGo (trimSpaceGo ((chars " 1,234 ").filter (fun c => c ≠ ','))) =
        some 1234 ∧
      parseNumericValue (chars " 1,234 ") (-3) = some (1234 * 10 ^ 3) ∧
      parseNumericValue (chars " 1,234 ") 0 = some 1234 := by
  have hq : parseFloatGo (trimSpaceGo ((chars " 1,234 ").filter (fun c => c ≠ ','))) =
      some 1234 := by
    rw [show trimSpaceGo ((chars " 1,234 ").filter (fun c => c ≠ ',')) = chars "1234"
        from by decide,
      parseFloatGo,
      show parseFloatParts (chars "1234") = some ⟨false, 1234, 0, 0, 0⟩ from by decide]
    norm_num [floatPartsValue]
  exact ⟨hq, (parseNumericValue_spec (chars " 1,234 ") (-3) 1234 hq).1 3 (by norm_num)
      (by norm_num),
    (parseNumericValue_spec (chars " 1,234 ") 0 1234 hq).2 le_rfl⟩

/-! ## Dates

Go `time.Parse("2006-01-02", s)` and `time.Time` ordering/differences for
midnight dates, embedded as calendar triples and a rata-die day count. -/

def isLeapYear (y : ℕ) : Bool :=
  (y % 4 = 0 && y % 100 ≠ 0) || y % 400 = 0

def daysInMonth (m y : ℕ) : ℕ :=
  if m = 2 then (if isLeapYear y then 29 else 28)
  else if m = 4 ∨ m = 6 ∨ m = 9 ∨ m = 11 then 30
  else 31

/-- `time.Parse("2006-01-02", s)`: exactly `DDDD-DD-DD` digits, with Go's
month/day range validation. -/
def parseISODate (s : List Char) : Option (ℕ × ℕ × ℕ) :=
  match s with
  | [y1, y2, y3, y4, '-', m1, m2, '-', d1, d2] =>
    if (y1.isDigit && y2.isDigit && y3.isDigit && y4.isDigit &&
        m1.isDigit && m2.isDigit && d1.isDigit && d2.isDigit) then
      let y := digitsToNat [y1, y2, y3, y4]
      let m := digitsToNat [m1, m2]
      let d := digitsToNat [d1, d2]
      if 1 ≤ m ∧ m ≤ 12 ∧ 1 ≤ d ∧ d ≤ daysInMonth m y then some (y, m, d)
      else none
    else none
  | _ => none

/-- Day number of a calendar date (the classic `days_from_civil`
algorithm); differences of `rataDie` values are exactly the day spans Go
computes with `end.Sub(start).Hours()/24` for midnight dates, and
`a.After(b)` is `rataDie a > rataDie b`. -/
def rataDie (ymd : ℕ × ℕ × ℕ) : Int :=
  let y := ymd.1
  let m := ymd.2.1
  let d := ymd.2.2
  let yAdj : Int := if m ≤ 2 then (y : Int) - 1 else (y : Int)
  let era : Int := yAdj.fdiv 400
  let yoe : ℕ := (yAdj - era * 400).toNat
  let mp : ℕ := if 2 < m then m - 3 else m + 9
  let doy : ℕ := (153 * mp + 2) / 5 + d - 1
  let doe : ℕ := yoe * 365 + yoe / 4 - yoe / 100 + doy
  era * 146097 + (doe : Int) - 719468

/-- The decimal digits of `n` (used for date formatting). -/
def natToChars (n : ℕ) : List Char := Nat.toDigits 10 n

/-- Zero-pad to width `w`. -/
def padZero (w : ℕ) (n : ℕ) : List Char :=
  List.replicate (w - (natToChars n).length) '0' ++ natToChars n

/-- Go `t.Format("2006-01-02")`. -/
def formatISO (ymd : ℕ × ℕ × ℕ) : List Char :=
  padZero 4 ymd.1 ++ chars "-" ++ padZero 2 ymd.2.1 ++ chars "-" ++ padZero 2 ymd.2.2

/-! ## XBRL records and the fact query engine (xbrl.go, unnamed/part_014) -/

/-- `Period` (xbrl.go:33-37). -/
structure PeriodX where
  instant : List Char
  startDate : List Char
  endDate : List Char
  deriving DecidableEq

/-- `Context` (xbrl.go:20-24); the entity sub-record is not consumed by any
verified function and is reduced to its identifier string. -/
structure ContextX where
  id : List Char
  entityIdentifier : List Char
  period : PeriodX
  deriving DecidableEq

/-- `Unit` (xbrl.go:40-44), reduced to its id and measure (the `divide`
ratio form is not consumed by any verified function). -/
structure UnitX where
  id : List Char
  measure : List Char
  deriving DecidableEq

/-- `Fact` (xbrl.go:53-64) after `resolveFacts`: the raw fields plus the
derived standardized label, resolved period and cached numeric value. -/
structure Fact where
  concept : List Char
  value : List Char
  contextRef : List Char
  unitRef : List Char
  decimals : Int
  standardLabel : List Char
  period : Option PeriodX
  numericValue : Option ℚ
  deriving DecidableEq

/-- `XBRL` (xbrl.go:12-17). -/
structure XBRL where
  contexts : List ContextX
  units : List UnitX
  facts : List Fact
  deriving DecidableEq

/-- `Fact.IsInstant` (xbrl.go:252-254). -/
def IsInstant (f : Fact) : Bool :=
  match f.period with
  | none => false
  | some p => !p.instant.isEmpty

/-- `Fact.IsDuration` (xbrl.go:257-259). -/
def IsDuration (f : Fact) : Bool :=
  match f.period with
  | none => false
  | some p => !p.startDate.isEmpty && !p.endDate.isEmpty

/-- `Fact.GetEndDate` (xbrl.go:262-277): the end date, falling back to the
instant; `none` embeds the Go error returns (no period, no date, parse
failure). -/
def GetEndDate (f : Fact) : Option (ℕ × ℕ × ℕ) :=
  match f.period with
  | none => none
  | some p =>
    let dateStr := if p.endDate.isEmpty then p.instant else p.endDate
    if dateStr.isEmpty then none else parseISODate dateStr

/-- `Fact.Float64` (xbrl.go:244-249): the cached numeric value or an error. -/
def factFloat64 (f : Fact) : Option ℚ := f.numericValue

/-- `FactQuery` (part_014:11-19). -/
structure FactQuery where
  facts : List Fact
  conceptFilter : List (List Char)
  labelFilter : List Char
  periodFilter : List Char
  instantOnly : Bool
  durationOnly : Bool

/-- `XBRL.Query` (part_014:22-27). -/
def Query (x : XBRL) : FactQuery := ⟨x.facts, [], [], [], false, false⟩

/-- `FactQuery.ByLabel` (part_014:36-39). -/
def ByLabel (q : FactQuery) (label : List Char) : FactQuery :=
  { q with labelFilter := label }

/-- `FactQuery.ByConcept` (part_014:30-33). -/
def ByConcept (q : FactQuery) (concepts : List (List Char)) : FactQuery :=
  { q with conceptFilter := concepts }

/-- `FactQuery.ForPeriodEndingOn` (part_014:42-45). -/
def ForPeriodEndingOn (q : FactQuery) (date : List Char) : FactQuery :=
  { q with periodFilter := date }

/-- `FactQuery.InstantOnly` (part_014:48-51). -/
def InstantOnly (q : FactQuery) : FactQuery := { q with instantOnly := true }

/-- `FactQuery.DurationOnly` (part_014:54-57). -/
def DurationOnly (q : FactQuery) : FactQuery := { q with durationOnly := true }

/-- Go `strings.Contains(s, sub)`: `sub` occurs contiguously in `s`. -/
def containsSub (sub : List Char) : List Char → Bool
  | [] => sub.isEmpty
  | c :: rest => sub.isPrefixOf (c :: rest) || containsSub sub rest

/-- The `continue` chain in the body of `FactQuery.Get` (part_014:63-103)
as a predicate on one fact. -/
def queryMatches (q : FactQuery) (f : Fact) : Bool :=
  (if 0 < q.conceptFilter.length then
    q.conceptFilter.any (fun c => f.concept = c || containsSub c f.concept)
  else true) &&
  (q.labelFilter.isEmpty || f.standardLabel = q.labelFilter) &&
  (q.periodFilter.isEmpty ||
    (match GetEndDate f with
     | none => false
     | some ymd => formatISO ymd = q.periodFilter)) &&
  (!q.instantOnly || IsInstant f) &&
  (!q.durationOnly || IsDuration f)

/-- `FactQuery.Get` (part_014:60-106). -/
def Get (q : FactQuery) : List Fact := q.facts.filter (queryMatches q)

/-- The comparator of `MostRecent`'s `sort.Slice` call (part_014:125-132):
`dateI.After(dateJ)`, with a parse failure on either side compared as
`false`. -/
def endDateAfter (a b : Fact) : Bool :=
  match GetEndDate a, GetEndDate b with
  | some x, some y => rataDie y < rataDie x
  | _, _ => false

/-- `FactQuery.MostRecent` (part_014:118-135): sort the matches by end
date descending and take the head.  Go's `sort.Slice` is an unstable sort
and the comparator treats unparseable dates as incomparable, so among
facts with equal (or unparseable) end dates the head is
implementation-defined; the embedding fixes one admissible outcome — the
first fact no other fact strictly beats that scans as the running
maximum. -/
def MostRecent (q : FactQuery) : Option Fact :=
  match Get q with
  | [] => none
  | f :: rest =>
    some (rest.foldl (fun best g => if endDateAfter g best then g else best) f)

/-- `FactQuery.First` (part_014:109-115). -/
def First (q : FactQuery) : Option Fact :=
  match Get q with
  | [] => none
  | f :: _ => some f

/-- `FactQuery.Sum` (part_014:138-152): sum of the numeric values of the
matches (facts without a numeric value contribute nothing), or an error on
an empty match set. -/
def SumQ (q : FactQuery) : Option ℚ :=
  match Get q with
  | [] => none
  | l => some (l.foldl (fun acc f =>
      match factFloat64 f with
      | some v => acc + v
      | none => acc) 0)

/-! ## Financial snapshot (unnamed/part_014, `GetSnapshot`,
`validateRequiredFields`) -/

/-- The `getInstant` closure of `GetSnapshot` (part_014:374-381): most
recent instant fact with the label, its numeric value, or 0. -/
def getInstant (x : XBRL) (label : List Char) : ℚ :=
  match MostRecent (InstantOnly (ByLabel (Query x) label)) with
  | none => 0
  | some f =>
    match factFloat64 f with
    | some v => v
    | none => 0

/-- The `getDuration` closure of `GetSnapshot` (part_014:384-391). -/
def getDuration (x : XBRL) (label : List Char) : ℚ :=
  match MostRecent (DurationOnly (ByLabel (Query x) label)) with
  | none => 0
  | some f =>
    match factFloat64 f with
    | some v => v
    | none => 0

/-- The four DEI strings collected by `extractMetadata` (part_014:501-523);
the loop overwrites, so the last matching fact wins. -/
structure DEIMeta where
  companyName : List Char
  cik : List Char
  fiscalPeriod : List Char
  formType : List Char

def extractMetadataGo (x : XBRL) : DEIMeta :=
  x.facts.foldl
    (fun acc f =>
      let acc := if f.concept = chars "dei:EntityRegistrantName" then
        { acc with companyName := f.value } else acc
      let acc := if f.concept = chars "dei:EntityCentralIndexKey" then
        { acc with cik := f.value } else acc
      let acc := if f.concept = chars "dei:DocumentFiscalPeriodFocus" then
        { acc with fiscalPeriod := f.value } else acc
      if f.concept = chars "dei:DocumentType" then
        { acc with formType := f.value } else acc)
    ⟨[], [], [], []⟩

/-- `findFiscalYearEnd` (part_014:527-577): the latest end date of a
duration context whose span is 300–400 days (annual) or 80–100 days
(quarterly).  The zero `time.Time` sentinel is the date `(1,1,1)`
(January 1 of year 1), exactly Go's zero value. -/
def findFiscalYearEnd (x : XBRL) : ℕ × ℕ × ℕ :=
  x.contexts.foldl
    (fun latest ctx =>
      if ctx.period.endDate.isEmpty && ctx.period.instant.isEmpty then latest
      else
        let parsed :=
          if !ctx.period.endDate.isEmpty then parseISODate ctx.period.endDate
          else parseISODate ctx.period.instant
        match parsed with
        | none => latest
        | some endD =>
          if !ctx.period.startDate.isEmpty then
            match parseISODate ctx.period.startDate with
            | none => latest
            | some startD =>
              let duration := rataDie endD - rataDie startD
              let latest1 :=
                if 300 ≤ duration ∧ duration ≤ 400 ∧ rataDie latest < rataDie endD
                then endD else latest
              if 80 ≤ duration ∧ duration ≤ 100 ∧ rataDie latest1 < rataDie endD
              then endD else latest1
          else latest)
    (1, 1, 1)

/-- `FinancialSnapshot` (part_014:292-358). -/
structure FinancialSnapshot where
  fiscalYearEnd : List Char
  filingDate : List Char
  fiscalPeriod : List Char
  formType : List Char
  companyName : List Char
  cik : List Char
  missingRequiredFields : List (List Char)
  cash : ℚ
  accountsReceivable : ℚ
  inventory : ℚ
  prepaidExpenses : ℚ
  propertyPlantEquipment : ℚ
  intangibleAssets : ℚ
  goodwill : ℚ
  totalAssets : ℚ
  shortTermDebt : ℚ
  longTermDebt : ℚ
  totalDebt : ℚ
  accountsPayable : ℚ
  accruedLiabilities : ℚ
  deferredRevenue : ℚ
  totalLiabilities : ℚ
  stockholdersEquity : ℚ
  accumulatedDeficit : ℚ
  commonStockSharesOutstanding : ℚ
  revenue : ℚ
  costOfRevenue : ℚ
  grossProfit : ℚ
  rdExpense : ℚ
  gaExpense : ℚ
  sellingMarketingExpense : ℚ
  totalOperatingExpenses : ℚ
  operatingIncome : ℚ
  interestExpense : ℚ
  incomeTaxExpense : ℚ
  netIncome : ℚ
  basicShares : ℚ
  dilutedShares : ℚ
  epsBasic : ℚ
  epsDiluted : ℚ
  cashFlowOperations : ℚ
  cashFlowInvesting : ℚ
  cashFlowFinancing : ℚ
  capitalExpenditures : ℚ
  depreciationAmortization : ℚ
  stockBasedCompensation : ℚ

/-- The snapshot as assembled by `GetSnapshot` (part_014:360-445) just
before required-field validation (`MissingRequiredFields` still empty). -/
def snapshotBase (x : XBRL) : FinancialSnapshot :=
  let meta := extractMetadataGo x
  let fye := findFiscalYearEnd x
  let shortTermDebt := getInstant x (chars "Short-Term Debt")
  let longTermDebt := getInstant x (chars "Long-Term Debt")
  { fiscalYearEnd := if fye = (1, 1, 1) then [] else formatISO fye
    filingDate := []
    fiscalPeriod := meta.fiscalPeriod
    formType := meta.formType
    companyName := meta.companyName
    cik := meta.cik
    missingRequiredFields := []
    cash := getInstant x (chars "Cash and Cash Equivalents")
    accountsReceivable := getInstant x (chars "Accounts Receivable")
    inventory := getInstant x (chars "Inventory")
    prepaidExpenses := getInstant x (chars "Prepaid Expenses")
    propertyPlantEquipment := getInstant x (chars "Property Plant and Equipment")
    intangibleAssets := getInstant x (chars "Intangible Assets")
    goodwill := getInstant x (chars "Goodwill")
    totalAssets := getInstant x (chars "Total Assets")
    shortTermDebt := shortTermDebt
    longTermDebt := longTermDebt
    totalDebt := shortTermDebt + longTermDebt
    accountsPayable := getInstant x (chars "Accounts Payable")
    accruedLiabilities := getInstant x (chars "Accrued Liabilities")
    deferredRevenue := getInstant x (chars "Deferred Revenue")
    totalLiabilities := getInstant x (chars "Total Liabilities")
    stockholdersEquity := getInstant x (chars "Stockholders Equity")
    accumulatedDeficit := getInstant x (chars "Accumulated Deficit")
    commonStockSharesOutstanding := getInstant x (chars "Common Stock Shares Outstanding")
    revenue := getDuration x (chars "Revenue")
    costOfRevenue := getDuration x (chars "Cost of Revenue")
    grossProfit := getDuration x (chars "Gross Profit")
    rdExpense := getDuration x (chars "Research and Development Expense")
    gaExpense := getDuration x (chars "General and Administrative Expense")
    sellingMarketingExpense := getDuration x (chars "Selling and Marketing Expense")
    totalOperatingExpenses := getDuration x (chars "Total Operating Expenses")
    operatingIncome := getDuration x (chars "Operating Income (Loss)")
    interestExpense := getDuration x (chars "Interest Expense")
    incomeTaxExpense := getDuration x (chars "Income Tax Expense")
    netIncome := getDuration x (chars "Net Income (Loss)")
    basicShares := getDuration x (chars "Shares Outstanding (Basic)")
    dilutedShares := getDuration x (chars "Shares Outstanding (Diluted)")
    epsBasic := getDuration x (chars "EPS Basic")
    epsDiluted := getDuration x (chars "EPS Diluted")
    cashFlowOperations := getDuration x (chars "Cash Flow from Operations")
    cashFlowInvesting := getDuration x (chars "Cash Flow from Investing")
    cashFlowFinancing := getDuration x (chars "Cash Flow from Financing")
    capitalExpenditures := getDuration x (chars "Capital Expenditures")
    depreciationAmortization := getDuration x (chars "Depreciation and Amortization")
    stockBasedCompensation := getDuration x (chars "Stock-Based Compensation") }

/-- Sorted insertion under Go string order. -/
def insertStr (a : List Char) : List (List Char) → List (List Char)
  | [] => [a]
  | b :: bs => if goLe a b then a :: b :: bs else b :: insertStr a bs

/-- `sort.Strings` (an insertion sort produces the same sorted list). -/
def sortStrings : List (List Char) → List (List Char)
  | [] => []
  | a :: as => insertStr a (sortStrings as)

/-- The `requiredFields` map literal of `validateRequiredFields`
(part_014:458-466), in source order.  Go iterates the map in an
unspecified order, but the output below is sorted, so any order yields the
same list. -/
def requiredPairs (s : FinancialSnapshot) : List (List Char × ℚ) :=
  [(chars "Total Assets", s.totalAssets),
   (chars "Total Liabilities", s.totalLiabilities),
   (chars "Stockholders Equity", s.stockholdersEquity),
   (chars "Revenue", s.revenue),
   (chars "Net Income (Loss)", s.netIncome),
   (chars "Cash Flow from Operations", s.cashFlowOperations),
   (chars "Shares Outstanding (Diluted)", s.dilutedShares)]

/-- `validateRequiredFields` (part_014:454-480): the sorted labels whose
value is exactly 0. -/
def validateRequiredFields (s : FinancialSnapshot) : List (List Char) :=
  sortStrings (((requiredPairs s).filter (fun kv => kv.2 = 0)).map Prod.fst)

/-- `GetSnapshot` (part_014:360-450): the assembled snapshot with
`MissingRequiredFields` filled in last. -/
def GetSnapshot (x : XBRL) : FinancialSnapshot :=
  { snapshotBase x with
    missingRequiredFields := validateRequiredFields (snapshotBase x) }

theorem mem_insertStr (a x : List Char) (l : List (List Char)) :
    x ∈ insertStr a l ↔ x = a ∨ x ∈ l := by
  induction l with
  | nil => simp [insertStr]
  | cons b bs ih =>
    by_cases h : goLe a b = true
    · simp [insertStr, h]
    · simp [insertStr, h, ih]
      tauto

theorem mem_sortStrings (x : List Char) (l : List (List Char)) :
    x ∈ sortStrings l ↔ x ∈ l := by
  induction l with
  | nil => simp [sortStrings]
  | cons a as ih => simp [sortStrings, mem_insertStr, ih]

theorem mem_validateRequiredFields (s : FinancialSnapshot) (lab : List Char) :
    lab ∈ validateRequiredFields s ↔
      ∃ kv ∈ requiredPairs s, kv.2 = 0 ∧ kv.1 = lab := by
  rw [validateRequiredFields, mem_sortStrings]
  simp only [List.mem_map, List.mem_filter]
  constructor
  · rintro ⟨kv, ⟨hmem, h0⟩, rfl⟩
    exact ⟨kv, hmem, by simpa using h0, rfl⟩
  · rintro ⟨kv, hmem, h0, rfl⟩
    exact ⟨kv, ⟨hmem, by simpa using h0⟩, rfl⟩

/-- A required label with a unique entry in the pairs list is reported
missing exactly when its value is 0. -/
theorem validate_mem_iff (s : FinancialSnapshot) (lab : List Char) (v : ℚ)
    (hin : (lab, v) ∈ requiredPairs s)
    (huniq : ∀ kv ∈ requiredPairs s, kv.1 = lab → kv.2 = v) :
    lab ∈ validateRequiredFields s ↔ v = 0 := by
  rw [mem_validateRequiredFields]
  constructor
  · rintro ⟨kv, hkv, h0, hlab⟩
    rw [← huniq kv hkv hlab]
    exact h0
  · intro h0
    exact ⟨(lab, v), hin, h0, rfl⟩

/-- C8: in every snapshot produced by `GetSnapshot`, each of the seven
required labels appears in `MissingRequiredFields` exactly when the
corresponding snapshot value is 0. -/
theorem getSnapshot_missing_iff (x : XBRL) :
    (chars "Total Assets" ∈ (GetSnapshot x).missingRequiredFields ↔
      (GetSnapshot x).totalAssets = 0) ∧
    (chars "Total Liabilities" ∈ (GetSnapshot x).missingRequiredFields ↔
      (GetSnapshot x).totalLiabilities = 0) ∧
    (chars "Stockholders Equity" ∈ (GetSnapshot x).missingRequiredFields ↔
      (GetSnapshot x).stockholdersEquity = 0) ∧
    (chars "Revenue" ∈ (GetSnapshot x).missingRequiredFields ↔
      (GetSnapshot x).revenue = 0) ∧
    (chars "Net Income (Loss)" ∈ (GetSnapshot x).missingRequiredFields ↔
      (GetSnapshot x).netIncome = 0) ∧
    (chars "Cash Flow from Operations" ∈ (GetSnapshot x).missingRequiredFields ↔
      (GetSnapshot x).cashFlowOperations = 0) ∧
    (chars "Shares Outstanding (Diluted)" ∈ (GetSnapshot x).missingRequiredFields ↔
      (GetSnapshot x).dilutedShares = 0) := by
  have hmiss : (GetSnapshot x).missingRequiredFields =
      validateRequiredFields (snapshotBase x) := rfl
  refine ⟨?_, ?_, ?_, ?_, ?_, ?_, ?_⟩ <;> rw [hmiss]
  · rw [show (GetSnapshot x).totalAssets = (snapshotBase x).totalAssets from rfl]
    refine validate_mem_iff (snapshotBase x) _ _ (by simp [requiredPairs]) ?_
    intro kv hkv hlab
    simp [requiredPairs] at hkv
    rcases hkv with rfl | rfl | rfl | rfl | rfl | rfl | rfl
    · rfl
    · exact ((by decide : ¬(chars "Total Liabilities" = chars "Total Assets")) hlab).elim
    · exact ((by decide : ¬(chars "Stockholders Equity" = chars "Total Assets")) hlab).elim
    · exact ((by decide : ¬(chars "Revenue" = chars "Total Assets")) hlab).elim
    · exact ((by decide : ¬(chars "Net Income (Loss)" = chars "Total Assets")) hlab).elim
    · exact ((by decide : ¬(chars "Cash Flow from Operations" = chars "Total Assets")) hlab).elim
    · exact ((by decide : ¬(chars "Shares Outstanding (Diluted)" = chars "Total Assets")) hlab).elim
  · rw [show (GetSnapshot x).totalLiabilities = (snapshotBase x).totalLiabilities from rfl]
    refine validate_mem_iff (snapshotBase x) _ _ (by simp [requiredPairs]) ?_
    intro kv hkv hlab
    simp [requiredPairs] at hkv
    rcases hkv with rfl | rfl | rfl | rfl | rfl | rfl | rfl
    · exact ((by decide : ¬(chars "Total Assets" = chars "Total Liabilities")) hlab).elim
    · rfl
    · exact ((by decide : ¬(chars "Stockholders Equity" = chars "Total Liabilities")) hlab).elim
    · exact ((by decide : ¬(chars "Revenue" = chars "Total Liabilities")) hlab).elim
    · exact ((by decide : ¬(chars "Net Income (Loss)" = chars "Total Liabilities")) hlab).elim
    · exact ((by decide : ¬(chars "Cash Flow from Operations" = chars "Total Liabilities")) hlab).elim
    · exact ((by decide : ¬(chars "Shares Outstanding (Diluted)" = chars "Total Liabilities")) hlab).elim
  · rw [show (GetSnapshot x).stockholdersEquity = (snapshotBase x).stockholdersEquity from rfl]
    refine validate_mem_iff (snapshotBase x) _ _ (by simp [requiredPairs]) ?_
    intro kv hkv hlab
    simp [requiredPairs] at hkv
    rcases hkv with rfl | rfl | rfl | rfl | rfl | rfl | rfl
    · exact ((by decide : ¬(chars "Total Assets" = chars "Stockholders Equity")) hlab).elim
    · exact ((by decide : ¬(chars "Total Liabilities" = chars "Stockholders Equity")) hlab).elim
    · rfl
    · exact ((by decide : ¬(chars "Revenue" = chars "Stockholders Equity")) hlab).elim
    · exact ((by decide : ¬(chars "Net Income (Loss)" = chars "Stockholders Equity")) hlab).elim
    · exact ((by decide : ¬(chars "Cash Flow from Operations" = chars "Stockholders Equity")) hlab).elim
    · exact ((by decide : ¬(chars "Shares Outstanding (Diluted)" = chars "Stockholders Equity")) hlab).elim
  · rw [show (GetSnapshot x).revenue = (snapshotBase x).revenue from rfl]
    refine validate_mem_iff (snapshotBase x) _ _ (by simp [requiredPairs]) ?_
    intro kv hkv hlab
    simp [requiredPairs] at hkv
    rcases hkv with rfl | rfl | rfl | rfl | rfl | rfl | rfl
    · exact ((by decide : ¬(chars "Total Assets" = chars "Revenue")) hlab).elim
    · exact ((by decide : ¬(chars "Total Liabilities" = chars "Revenue")) hlab).elim
    · exact ((by decide : ¬(chars "Stockholders Equity" = chars "Revenue")) hlab).elim
    · rfl
    · exact ((by decide : ¬(chars "Net Income (Loss)" = chars "Revenue")) hlab).elim
    · exact ((by decide : ¬(chars "Cash Flow from Operations" = chars "Revenue")) hlab).elim
    · exact ((by decide : ¬(chars "Shares Outstanding (Diluted)" = chars "Revenue")) hlab).elim
  · rw [show (GetSnapshot x).netIncome = (snapshotBase x).netIncome from rfl]
    refine validate_mem_iff (snapshotBase x) _ _ (by simp [requiredPairs]) ?_
    intro kv hkv hlab
    simp [requiredPairs] at hkv
    rcases hkv with rfl | rfl | rfl | rfl | rfl | rfl | rfl
    · exact ((by decide : ¬(chars "Total Assets" = chars "Net Income (Loss)")) hlab).elim
    · exact ((by decide : ¬(chars "Total Liabilities" = chars "Net Income (Loss)")) hlab).elim
    · exact ((by decide : ¬(chars "Stockholders Equity" = chars "Net Income (Loss)")) hlab).elim
    · exact ((by decide : ¬(chars "Revenue" = chars "Net Income (Loss)")) hlab).elim
    · rfl
    · exact ((by decide : ¬(chars "Cash Flow from Operations" = chars "Net Income (Loss)")) hlab).elim
    · exact ((by decide : ¬(chars "Shares Outstanding (Diluted)" = chars "Net Income (Loss)")) hlab).elim
  · rw [show (GetSnapshot x).cashFlowOperations = (snapshotBase x).cashFlowOperations from rfl]
    refine validate_mem_iff (snapshotBase x) _ _ (by simp [requiredPairs]) ?_
    intro kv hkv hlab
    simp [requiredPairs] at hkv
    rcases hkv with rfl | rfl | rfl | rfl | rfl | rfl | rfl
    · exact ((by decide : ¬(chars "Total Assets" = chars "Cash Flow from Operations")) hlab).elim
    · exact ((by decide : ¬(chars "Total Liabilities" = chars "Cash Flow from Operations")) hlab).elim
    · exact ((by decide : ¬(chars "Stockholders Equity" = chars "Cash Flow from Operations")) hlab).elim
    · exact ((by decide : ¬(chars "Revenue" = chars "Cash Flow from Operations")) hlab).elim
    · exact ((by decide : ¬(chars "Net Income (Loss)" = chars "Cash Flow from Operations")) hlab).elim
    · rfl
    · exact ((by decide : ¬(chars "Shares Outstanding (Diluted)" = chars "Cash Flow from Operations")) hlab).elim
  · rw [show (GetSnapshot x).dilutedShares = (snapshotBase x).dilutedShares from rfl]
    refine validate_mem_iff (snapshotBase x) _ _ (by simp [requiredPairs]) ?_
    intro kv hkv hlab
    simp [requiredPairs] at hkv
    rcases hkv with rfl | rfl | rfl | rfl | rfl | rfl | rfl
    · exact ((by decide : ¬(chars "Total Assets" = chars "Shares Outstanding (Diluted)")) hlab).elim
    · exact ((by decide : ¬(chars "Total Liabilities" = chars "Shares Outstanding (Diluted)")) hlab).elim
    · exact ((by decide : ¬(chars "Stockholders Equity" = chars "Shares Outstanding (Diluted)")) hlab).elim
    · exact ((by decide : ¬(chars "Revenue" = chars "Shares Outstanding (Diluted)")) hlab).elim
    · exact ((by decide : ¬(chars "Net Income (Loss)" = chars "Shares Outstanding (Diluted)")) hlab).elim
    · exact ((by decide : ¬(chars "Cash Flow from Operations" = chars "Shares Outstanding (Diluted)")) hlab).elim
    · rfl

/-! ## Batch orchestrator, list-only mode -/

/-- Modelled from the spec: `BatchOptions` of the shipped batch
orchestrator.  The sources provided contain only an older
`FetchAndParseBatch` without a `ListOnly` field (unnamed/part_003), while
the CLI (cmd/goedgar/main.go:318-327) and the README construct
`BatchOptions` with `ListOnly` and read `BatchResult.FilingList`; the
shipped orchestrator itself is missing.  Fields per spec §4.13. -/
structure BatchOptionsM where
  cik : List Char
  formType : List Char
  dateFrom : List Char
  dateTo : List Char
  email : List Char
  includePaginated : Bool
  listOnly : Bool

/-- Modelled from the spec: `BatchResult` of the shipped orchestrator,
with `FilingList` (index metadata, list-only mode), the parsed filings,
the counts and the per-filing errors.  `downloads` records every filing
passed to the fetch step, so that "no filing is downloaded" is a statement
about the result. -/
structure BatchResultM (α : Type) where
  filings : List α
  filingList : List Filing
  totalFound : ℕ
  fetched : ℕ
  errors : List (List Char)
  downloads : List Filing

/-- Modelled from the spec (§4.13 step 3): the form filter followed by the
date filter, the latter applied only when a bound is set, with unset
bounds replaced by `1900-01-01`/`2099-12-31` (this step is also present in
the older orchestrator, part_003:551-565). -/
def batchFilter (opts : BatchOptionsM) (allFilings : List Filing) : List Filing :=
  let byForm := allFilings.filter (fun f => matchesFormType f.form opts.formType)
  if !opts.dateFrom.isEmpty || !opts.dateTo.isEmpty then
    FilterByDateRange byForm
      (if opts.dateFrom.isEmpty then chars "1900-01-01" else opts.dateFrom)
      (if opts.dateTo.isEmpty then chars "2099-12-31" else opts.dateTo)
  else byForm

/-- Modelled from the spec (§4.13): the shipped `FetchAndParseBatch`.
`fetchParse` abstracts the per-filing fetch-and-dispatch step (C2 then
C5/C6), returning either a parsed record or an error message; the index
(`allFilings`) abstracts the C3 submissions-index fetch.  Steps: validate
options, filter, record `total_found`; in list-only mode return the
filtered index records unchanged and skip fetch/parse; otherwise fetch and
parse each filing sequentially, collecting per-filing errors. -/
def FetchAndParseBatchM {α : Type} (opts : BatchOptionsM)
    (allFilings : List Filing)
    (fetchParse : Filing → List Char ⊕ α) : Option (BatchResultM α) :=
  if opts.cik.isEmpty || opts.formType.isEmpty || opts.email.isEmpty then
    none
  else
    let filtered := batchFilter opts allFilings
    if opts.listOnly then
      some ⟨[], filtered, filtered.length, 0, [], []⟩
    else
      let step := fun (acc : BatchResultM α) (f : Filing) =>
        match fetchParse f with
        | Sum.inl e =>
          { acc with
            errors := acc.errors ++ [e]
            downloads := acc.downloads ++ [f] }
        | Sum.inr a =>
          { acc with
            filings := acc.filings ++ [a]
            fetched := acc.fetched + 1
            downloads := acc.downloads ++ [f] }
      some (filtered.foldl step ⟨[], [], filtered.length, 0, [], []⟩)

/-- C9: with the list-only option set (and valid options), the batch
orchestrator returns the filtered index records unchanged, fetches and
parses nothing (`fetched = 0`, no downloads, no parsed filings, no
errors). -/
theorem fetchAndParseBatch_listOnly {α : Type} (opts : BatchOptionsM)
    (allFilings : List Filing) (fetchParse : Filing → List Char ⊕ α)
    (hlist : opts.listOnly = true)
    (hcik : opts.cik ≠ []) (hform : opts.formType ≠ []) (hemail : opts.email ≠ []) :
    FetchAndParseBatchM opts allFilings fetchParse =
      some ⟨[], batchFilter opts allFilings,
        (batchFilter opts allFilings).length, 0, [], []⟩ := by
  rw [FetchAndParseBatchM, if_neg (by simp [hcik, hform, hemail]), if_pos hlist]

/-- Options for the list-only witness scenario. -/
def listOnlyOpts : BatchOptionsM :=
  ⟨chars "1263508", chars "13", [], [], chars "analyst@fund.example", false, true⟩

/-- Witness for `fetchAndParseBatch_listOnly`: a list-only run over a
one-filing index, with a fetch oracle that would fail if it were ever
consulted. -/
theorem fetchAndParseBatch_listOnly_witness :
    listOnlyOpts.listOnly = true ∧ listOnlyOpts.cik ≠ [] ∧
      listOnlyOpts.formType ≠ [] ∧ listOnlyOpts.email ≠ [] ∧
      FetchAndParseBatchM listOnlyOpts [sampleFiling2025]
          (fun _ => (Sum.inl (chars "network down") : List Char ⊕ Unit)) =
        some ⟨[], batchFilter listOnlyOpts [sampleFiling2025],
          (batchFilter listOnlyOpts [sampleFiling2025]).length, 0, [], []⟩ :=
  ⟨rfl, by decide, by decide, by decide,
    fetchAndParseBatch_listOnly listOnlyOpts [sampleFiling2025] _
      rfl (by decide) (by decide) (by decide)⟩

/-! ## Text normalizer (unnamed/part_007, `NormalizeText`) -/

/-- Go `strings.ReplaceAll` with the non-empty pattern `p :: ps`:
left-to-right, non-overlapping replacement.  Structural recursion on a
fuel argument (`fuel ≥ length` always holds from `replaceAll1`, which
passes the input length; skipping a match consumes at least one character,
so the fuel never runs out). -/
def replaceAllAux (p : Char) (ps rep : List Char) : ℕ → List Char → List Char
  | _, [] => []
  | 0, s => s
  | fuel + 1, c :: rest =>
    if (p :: ps).isPrefixOf (c :: rest) then
      rep ++ replaceAllAux p ps rep fuel (rest.drop ps.length)
    else
      c :: replaceAllAux p ps rep fuel rest

def replaceAll1 (p : Char) (ps rep s : List Char) : List Char :=
  replaceAllAux p ps rep s.length s

/-- Go `strings.ReplaceAll`.  (For an empty pattern Go would interleave
the replacement between all characters; no pattern below is empty, so that
case is the identity here.) -/
def replaceAllGo (pat rep s : List Char) : List Char :=
  match pat with
  | [] => s
  | p :: ps => replaceAll1 p ps rep s

/-- The `replacements` map literal of `normalizeHTMLEntities`
(part_007:209-235), in source order.  Go iterates a map in an unspecified
order; the theorems below do not depend on the order (see the comments on
the two theorems). -/
def entityReplacements : List (List Char × List Char) :=
  [(chars "&nbsp;", [' ']), (chars "&mdash;", ['—']), (chars "&ndash;", ['–']),
   (chars "&ldquo;", ['“']), (chars "&rdquo;", ['”']), (chars "&lsquo;", ['‘']),
   (chars "&rsquo;", ['’']), (chars "&amp;", ['&']), (chars "&lt;", ['<']),
   (chars "&gt;", ['>']), (chars "&quot;", ['"']), (chars "&apos;", ['\'']),
   (chars "&hellip;", chars "..."), (chars "&bull;", ['•']),
   (chars "&trade;", ['™']), (chars "&reg;", ['®']), (chars "&copy;", ['©']),
   (chars "&sect;", ['§']), (chars "&para;", ['¶']),
   (chars "&#160;", [' ']), (chars "&#8211;", ['–']), (chars "&#8212;", ['—']),
   (chars "&#8220;", ['“']), (chars "&#8221;", ['”']), (chars "&#8217;", ['’'])]

/-- The replacement function of the numeric-entity pass
(part_007:243-267): `&#NNN;` with the digit run `ds`.  `fmt.Sscanf` with
`%d` fails on 64-bit overflow (match left unchanged); the switch special
cases nbsp/dashes/quotes; otherwise a valid code becomes the rune (Go's
`string(rune(code))` yields U+FFFD for surrogate code points) and a code
beyond U+10FFFF leaves the match unchanged. -/
def numericEntityReplace (ds : List Char) : List Char :=
  let code := digitsToNat ds
  if code < 2 ^ 63 then
    if code = 160 then [' ']
    else if code = 8211 then ['–']
    else if code = 8212 then ['—']
    else if code = 8220 ∨ code = 8221 then ['"']
    else if code = 8217 then ['\'']
    else if code < 0x110000 then
      if 0xD800 ≤ code ∧ code < 0xE000 then [Char.ofNat 0xFFFD]
      else [Char.ofNat code]
    else '&' :: '#' :: (ds ++ [';'])
  else '&' :: '#' :: (ds ++ [';'])

/-- The `regexp.MustCompile("&#(\\d+);").ReplaceAllStringFunc` pass of
`normalizeHTMLEntities` (part_007:242-267): scan left to right; at each
`&#` followed by one or more digits and `;`, substitute
`numericEntityReplace` and continue after the match (non-overlapping, as
the regexp engine does). -/
def numEntAux : ℕ → List Char → List Char
  | _, [] => []
  | 0, s => s
  | fuel + 1, c :: rest =>
    if c = '&' then
      match rest with
      | c2 :: rest2 =>
        if c2 = '#' then
          let ds := rest2.takeWhile Char.isDigit
          match rest2.drop ds.length with
          | c3 :: rest3 =>
            if c3 = ';' ∧ ¬ds.isEmpty then
              numericEntityReplace ds ++ numEntAux fuel rest3
            else c :: numEntAux fuel rest
          | [] => c :: numEntAux fuel rest
        else c :: numEntAux fuel rest
      | [] => [c]
    else c :: numEntAux fuel rest

def numEnt (s : List Char) : List Char := numEntAux s.length s

/-- `normalizeHTMLEntities` (part_007:207-270): the named-entity map loop
followed by the numeric-entity regexp pass. -/
def normalizeHTMLEntities (s : List Char) : List Char :=
  numEnt (entityReplacements.foldl (fun t pr => replaceAllGo pr.1 pr.2 t) s)

/-- The Unicode space characters listed in the `switch` of
`normalizeWhitespace` (part_007:281-291). -/
def isUnicodeSpace (c : Char) : Bool :=
  c.val = 0xA0 || (0x2000 ≤ c.val && c.val ≤ 0x200A) ||
  c.val = 0x202F || c.val = 0x205F || c.val = 0x3000

/-- The per-rune substitution of `normalizeWhitespace` (part_007:279-296):
the listed Unicode space characters become ASCII space. -/
def wsMap (c : Char) : Char :=
  if isUnicodeSpace c then ' ' else c

/-- `normalizeWhitespace` (part_007:273-299). -/
def normalizeWhitespace (s : List Char) : List Char := s.map wsMap

/-- Unicode general category Cf (format), as consulted by Go's
`unicode.Is(unicode.Cf, r)` (part_007:321): the standard Cf ranges. -/
def isCfGo (c : Char) : Bool :=
  c.val = 0xAD || (0x600 ≤ c.val && c.val ≤ 0x605) || c.val = 0x61C ||
  c.val = 0x6DD || c.val = 0x70F || (0x890 ≤ c.val && c.val ≤ 0x891) ||
  c.val = 0x8E2 || c.val = 0x180E || (0x200B ≤ c.val && c.val ≤ 0x200F) ||
  (0x202A ≤ c.val && c.val ≤ 0x202E) || (0x2060 ≤ c.val && c.val ≤ 0x2064) ||
  (0x2066 ≤ c.val && c.val ≤ 0x206F) || c.val = 0xFEFF ||
  (0xFFF9 ≤ c.val && c.val ≤ 0xFFFB) || c.val = 0x110BD || c.val = 0x110CD ||
  (0x13430 ≤ c.val && c.val ≤ 0x13438) || (0x1BCA0 ≤ c.val && c.val ≤ 0x1BCA3) ||
  (0x1D173 ≤ c.val && c.val ≤ 0x1D17A) || c.val = 0xE0001 ||
  (0xE0020 ≤ c.val && c.val ≤ 0xE007F)

/-- The skip condition of `removeInvisibleChars` (part_007:306-325): the
five listed zero-width/BOM characters, plus any other format-category
character except TAB/LF/CR. -/
def invisibleRemoved (c : Char) : Bool :=
  c.val = 0x200B || c.val = 0x200C || c.val = 0x200D || c.val = 0xFEFF ||
  c.val = 0x180E || (isCfGo c && c ≠ '\t' && c ≠ '\n' && c ≠ '\r')

/-- `removeInvisibleChars` (part_007:302-329). -/
def removeInvisibleChars (s : List Char) : List Char :=
  s.filter (fun c => !invisibleRemoved c)

/-- `strings.ReplaceAll(text, "\r\n", "\n")` (part_007:200), as the
left-to-right non-overlapping scan the replacement performs (structural on
a fuel argument, as for `replaceAllAux`). -/
def fixCRLFAux : ℕ → List Char → List Char
  | _, [] => []
  | 0, s => s
  | fuel + 1, c :: rest =>
    if c = '\r' then
      match rest with
      | c2 :: rest2 =>
        if c2 = '\n' then '\n' :: fixCRLFAux fuel rest2
        else c :: fixCRLFAux fuel rest
      | [] => [c]
    else c :: fixCRLFAux fuel rest

def fixCRLF (s : List Char) : List Char := fixCRLFAux s.length s

/-- `strings.ReplaceAll(text, "\r", "\n")` (part_007:201): a single-rune
substitution. -/
def mapCR (s : List Char) : List Char :=
  s.map (fun c => if c = '\r' then '\n' else c)

/-- `NormalizeText` (part_007:187-204): entities, Unicode whitespace,
invisible characters, then line endings.  (Go converts the byte slice to a
string and back; the embedding works on the rune sequence.) -/
def NormalizeText (s : List Char) : List Char :=
  mapCR (fixCRLF (removeInvisibleChars (normalizeWhitespace (normalizeHTMLEntities s))))

theorem replaceAllAux_id (p : Char) (ps rep : List Char) :
    ∀ s : List Char, p ∉ s → ∀ fuel, replaceAllAux p ps rep fuel s = s := by
  intro s
  induction s with
  | nil => intro _ fuel; cases fuel <;> rfl
  | cons c rest ih =>
    intro h fuel
    cases fuel with
    | zero => rfl
    | succ n =>
      have hpc : (p == c) = false := by
        have hne : p ≠ c := fun he => h (he ▸ List.mem_cons_self ..)
        simpa using hne
      have hpre : (p :: ps).isPrefixOf (c :: rest) = false := by
        show (p == c && ps.isPrefixOf rest) = false
        simp [hpc]
      simp [replaceAllAux, hpre, ih (fun m => h (List.mem_cons_of_mem _ m)) n]

theorem numEntAux_id :
    ∀ s : List Char, '&' ∉ s → ∀ fuel, numEntAux fuel s = s := by
  intro s
  induction s with
  | nil => intro _ fuel; cases fuel <;> rfl
  | cons c rest ih =>
    intro h fuel
    cases fuel with
    | zero => rfl
    | succ n =>
      have hc : ¬(c = '&') := fun he => h (he ▸ List.mem_cons_self ..)
      simp [numEntAux, hc, ih (fun m => h (List.mem_cons_of_mem _ m)) n]

theorem numEnt_id (s : List Char) (h : '&' ∉ s) : numEnt s = s :=
  numEntAux_id s h _

theorem foldl_replaceAllGo_id (prs : List (List Char × List Char)) :
    ∀ s : List Char, (∀ pr ∈ prs, pr.1.head? = some '&') → '&' ∉ s →
      prs.foldl (fun t pr => replaceAllGo pr.1 pr.2 t) s = s := by
  induction prs with
  | nil => intro s _ _; rfl
  | cons pr rest ih =>
    intro s hh hs
    have hstep : replaceAllGo pr.1 pr.2 s = s := by
      rcases pr with ⟨pat, rep⟩
      cases pat with
      | nil => rfl
      | cons p ps =>
        have hp : p = '&' := by
          simpa using hh (p :: ps, rep) (List.mem_cons_self ..)
        subst hp
        exact replaceAllAux_id '&' ps rep s hs _
    rw [List.foldl_cons, hstep]
    exact ih s (fun q hq => hh q (List.mem_cons_of_mem _ hq)) hs

/-- On input with no ampersand, the entity pass is the identity (both the
named-entity map loop — in any iteration order, since every pattern starts
with `&` — and the numeric pass). -/
theorem normalizeHTMLEntities_id (s : List Char) (h : '&' ∉ s) :
    normalizeHTMLEntities s = s := by
  rw [normalizeHTMLEntities, foldl_replaceAllGo_id entityReplacements s (by decide) h]
  exact numEnt_id s h

theorem wsMap_idem (c : Char) : wsMap (wsMap c) = wsMap c := by
  by_cases h : isUnicodeSpace c = true
  · simp [wsMap, h]
  · simp [wsMap, h]

theorem normalizeWhitespace_eq_self (s : List Char)
    (h : ∀ c ∈ s, wsMap c = c) : normalizeWhitespace s = s :=
  (List.map_congr_left h).trans (List.map_id s)

theorem fixCRLFAux_id :
    ∀ (fuel : ℕ) (s : List Char), '\r' ∉ s → fixCRLFAux fuel s = s := by
  intro fuel
  induction fuel with
  | zero => intro s _; cases s <;> rfl
  | succ n ih =>
    intro s h
    cases s with
    | nil => rfl
    | cons c rest =>
      have hc : ¬(c = '\r') := fun he => h (he ▸ List.mem_cons_self ..)
      simp [fixCRLFAux, hc, ih rest (fun m => h (List.mem_cons_of_mem _ m))]

theorem fixCRLF_id (s : List Char) (h : '\r' ∉ s) : fixCRLF s = s :=
  fixCRLFAux_id _ s h

theorem mem_fixCRLFAux (x : Char) :
    ∀ (fuel : ℕ) (s : List Char), x ∈ fixCRLFAux fuel s → x ∈ s ∨ x = '\n' := by
  intro fuel
  induction fuel with
  | zero =>
    intro s hx
    cases s with
    | nil => simp [fixCRLFAux] at hx
    | cons c rest => exact .inl hx
  | succ n ih =>
    intro s hx
    cases s with
    | nil => simp [fixCRLFAux] at hx
    | cons c rest =>
      by_cases hc : c = '\r'
      · subst hc
        cases rest with
        | nil => simp [fixCRLFAux] at hx; simp [hx]
        | cons c2 rest2 =>
          by_cases hc2 : c2 = '\n'
          · subst hc2
            simp only [fixCRLFAux, if_pos rfl, if_pos rfl] at hx
            rcases List.mem_cons.1 hx with rfl | hx2
            · exact .inr rfl
            · rcases ih rest2 hx2 with h1 | h1
              · exact .inl (List.mem_cons_of_mem _ (List.mem_cons_of_mem _ h1))
              · exact .inr h1
          · simp only [fixCRLFAux, if_pos rfl, if_neg hc2] at hx
            rcases List.mem_cons.1 hx with rfl | hx2
            · exact .inl (List.mem_cons_self ..)
            · rcases ih _ hx2 with h1 | h1
              · exact .inl (List.mem_cons_of_mem _ h1)
              · exact .inr h1
      · simp only [fixCRLFAux, if_neg hc] at hx
        rcases List.mem_cons.1 hx with rfl | hx2
        · exact .inl (List.mem_cons_self ..)
        · rcases ih _ hx2 with h1 | h1
          · exact .inl (List.mem_cons_of_mem _ h1)
          · exact .inr h1

theorem mem_fixCRLF (x : Char) (s : List Char) (h : x ∈ fixCRLF s) :
    x ∈ s ∨ x = '\n' :=
  mem_fixCRLFAux x _ s h

theorem mem_mapCR (x : Char) (s : List Char) (h : x ∈ mapCR s) :
    x ∈ s ∨ x = '\n' := by
  rcases List.mem_map.1 h with ⟨c, hc, rfl⟩
  by_cases hcr : c = '\r'
  · simp [hcr]
  · simp [hcr, hc]

theorem not_cr_mem_mapCR (s : List Char) : '\r' ∉ mapCR s := by
  intro hm
  rcases List.mem_map.1 hm with ⟨c, _, hc⟩
  by_cases hcr : c = '\r'
  · rw [if_pos hcr] at hc
    exact absurd hc (by decide)
  · rw [if_neg hcr] at hc
    exact hcr hc

theorem mapCR_id (s : List Char) (h : '\r' ∉ s) : mapCR s = s := by
  refine (List.map_congr_left ?_).trans (List.map_id s)
  intro c hc
  have : ¬(c = '\r') := fun he => h (he ▸ hc)
  simp [this]

/-- C7 (amended): the full normalizer is idempotent on every input that
contains no ampersand — entity rewriting is the only non-idempotent stage,
since expanding an entity can produce text that itself reads as an entity.
This holds whatever order Go's map iteration visits the named entities in,
because on `&`-free text every replacement pass is the identity. -/
theorem normalizeText_idem_of_no_amp (x : List Char) (hamp : '&' ∉ x) :
    NormalizeText (NormalizeText x) = NormalizeText x := by
  have hEx : normalizeHTMLEntities x = x := normalizeHTMLEntities_id x hamp
  have hN : NormalizeText x =
      mapCR (fixCRLF (removeInvisibleChars (normalizeWhitespace x))) := by
    rw [NormalizeText, hEx]
  have hmem : ∀ c ∈ NormalizeText x,
      c ∈ removeInvisibleChars (normalizeWhitespace x) ∨ c = '\n' := by
    intro c hc
    rw [hN] at hc
    rcases mem_mapCR c _ hc with hc1 | rfl
    · rcases mem_fixCRLF c _ hc1 with hc2 | rfl
      · exact .inl hc2
      · exact .inr rfl
    · exact .inr rfl
  have hws : ∀ c ∈ NormalizeText x, wsMap c = c := by
    intro c hc
    rcases hmem c hc with h1 | rfl
    · have h2 : c ∈ normalizeWhitespace x := List.mem_of_mem_filter h1
      rcases List.mem_map.1 h2 with ⟨c0, _, rfl⟩
      exact wsMap_idem c0
    · decide
  have hinv : ∀ c ∈ NormalizeText x, invisibleRemoved c = false := by
    intro c hc
    rcases hmem c hc with h1 | rfl
    · simpa using List.of_mem_filter h1
    · decide
  have hampN : '&' ∉ NormalizeText x := by
    intro hm
    rcases hmem _ hm with h1 | h1
    · have h2 : '&' ∈ normalizeWhitespace x := List.mem_of_mem_filter h1
      rcases List.mem_map.1 h2 with ⟨c0, hc0, heq⟩
      by_cases hu : isUnicodeSpace c0 = true
      · rw [wsMap, if_pos hu] at heq
        exact absurd heq (by decide)
      · rw [wsMap, if_neg hu] at heq
        exact hamp (heq ▸ hc0)
    · exact absurd h1 (by decide)
  have hcrN : '\r' ∉ NormalizeText x := by
    rw [hN]
    exact not_cr_mem_mapCR _
  have h1 : normalizeHTMLEntities (NormalizeText x) = NormalizeText x :=
    normalizeHTMLEntities_id _ hampN
  have h2 : normalizeWhitespace (NormalizeText x) = NormalizeText x :=
    normalizeWhitespace_eq_self _ hws
  have h3 : removeInvisibleChars (NormalizeText x) = NormalizeText x := by
    rw [removeInvisibleChars]
    exact List.filter_eq_self.mpr (fun c hc => by simp [hinv c hc])
  have h4 : fixCRLF (NormalizeText x) = NormalizeText x := fixCRLF_id _ hcrN
  have h5 : mapCR (NormalizeText x) = NormalizeText x := mapCR_id _ hcrN
  calc NormalizeText (NormalizeText x)
      = mapCR (fixCRLF (removeInvisibleChars (normalizeWhitespace
          (normalizeHTMLEntities (NormalizeText x))))) := rfl
    _ = NormalizeText x := by rw [h1, h2, h3, h4, h5]

/-- Witness for `normalizeText_idem_of_no_amp` on a string with an NBSP, a
zero-width space and a CRLF (no ampersand). -/
theorem normalizeText_idem_witness :
    '&' ∉ chars "a b​\r\nc" ∧
      NormalizeText (NormalizeText (chars "a b​\r\nc")) =
        NormalizeText (chars "a b​\r\nc") :=
  ⟨by decide, normalizeText_idem_of_no_amp _ (by decide)⟩

/-- C7 counterexample: the numeric entity `&#38;` expands to `&`, producing
the text `&nbsp;`, which a second pass rewrites to a space — so
`NormalizeText` is not idempotent.  Both evaluations are independent of
Go's map iteration order: the input contains no named entity (its only
ampersand is followed by `#`), and the intermediate `&nbsp;` contains
exactly one named entity. -/
theorem normalizeText_not_idem_cex :
    NormalizeText (chars "&#38;nbsp;") = chars "&nbsp;" ∧
      NormalizeText (NormalizeText (chars "&#38;nbsp;")) = chars " " ∧
      NormalizeText (NormalizeText (chars "&#38;nbsp;")) ≠
        NormalizeText (chars "&#38;nbsp;") := by
  refine ⟨by decide, by decide, by decide⟩

/-! ## Form 4 10b5-1 classifier (form4_tenb51.go) and the remarks gate
(form4_output.go)

The three regular expressions of form4_tenb51.go are embedded as direct
scanners with Go/RE2 semantics (leftmost match; `\b` is an ASCII word
boundary; `(?i)` is case folding — all pattern letters are ASCII; `\s` is
`[\t\n\f\r ]`; `.` does not match a newline). -/

/-- RE2 `\w` (ASCII). -/
def isWordCharRe (c : Char) : Bool := c.isAlphanum || c = '_'

/-- RE2 `\s`. -/
def isReSpace (c : Char) : Bool :=
  c = ' ' || c = '\t' || c = '\n' || c.val = 12 || c = '\r'

/-- `\b` before the current position, given the previous character
(`none` at the start of the text). -/
def noWordBefore : Option Char → Bool
  | none => true
  | some c => !isWordCharRe c

/-- `\b` after a match, given the remaining text. -/
def boundaryAfter : List Char → Bool
  | [] => true
  | c :: _ => !isWordCharRe c

/-- Case-insensitive prefix (ASCII folding, as all pattern letters are
ASCII). -/
def startsWithCI : List Char → List Char → Bool
  | [], _ => true
  | _ :: _, [] => false
  | p :: ps, c :: cs => (p.toLower = c.toLower) && startsWithCI ps cs

/-- `10b5[-–]?1` at the head of `s`; returns the rest on success. -/
def after10b51Core (s : List Char) : Option (List Char) :=
  match s with
  | '1' :: '0' :: b :: '5' :: rest =>
    if b.toLower = 'b' then
      match rest with
      | '1' :: rest2 => some rest2
      | d :: '1' :: rest2 => if d = '-' ∨ d = '–' then some rest2 else none
      | _ => none
    else none
  | _ => none

/-- `10b5[-–]?1\b` at the head of `s`. -/
def matchCore10b51 (s : List Char) : Bool :=
  match after10b51Core s with
  | some rest => boundaryAfter rest
  | none => false

/-- `rule\s*10b5[-–]?1\b` at the head of `s` (case-insensitive). -/
def matchRule10b51 (s : List Char) : Bool :=
  if startsWithCI (chars "rule") s then
    matchCore10b51 ((s.drop 4).dropWhile isReSpace)
  else false

/-- The scan of `re10b51 = \b(rule\s*)?10b5[-–]?1\b` (form4_tenb51.go:17):
a match exists at some position with a word boundary before it.  (When the
optional `rule\s*` group is present the leading `\b` sits before `rule`;
when it is absent it sits before `10b5`.) -/
def re10b51Scan : Option Char → List Char → Bool
  | _, [] => false
  | prev, c :: rest =>
    (noWordBefore prev && (matchCore10b51 (c :: rest) || matchRule10b51 (c :: rest)))
    || re10b51Scan (some c) rest

def matches10b51 (s : List Char) : Bool := re10b51Scan none s

/-- A `\s+`-separated word sequence at the head of `s`; returns the rest
on success. -/
def matchWordSeq : List (List Char) → List Char → Option (List Char)
  | [], s => some s
  | [w], s => if startsWithCI w s then some (s.drop w.length) else none
  | w :: ws, s =>
    if startsWithCI w s then
      let r := s.drop w.length
      let sp := r.takeWhile isReSpace
      if sp.isEmpty then none
      else matchWordSeq ws (r.drop sp.length)
    else none

/-- The alternatives of `rePositive` (form4_tenb51.go:20), in source
order. -/
def positiveAlts : List (List (List Char)) :=
  [[chars "pursuant", chars "to"], [chars "adopted"],
   [chars "in", chars "accordance", chars "with"], [chars "under"],
   [chars "effected", chars "pursuant", chars "to"]]

def matchPositiveAt (s : List Char) : Bool :=
  positiveAlts.any (fun alt =>
    match matchWordSeq alt s with
    | some rest => boundaryAfter rest
    | none => false)

/-- The scan of `rePositive = \b(pursuant\s+to|adopted|in\s+accordance\s+
with|under|effected\s+pursuant\s+to)\b` (form4_tenb51.go:20). -/
def rePositiveScan : Option Char → List Char → Bool
  | _, [] => false
  | prev, c :: rest =>
    (noWordBefore prev && matchPositiveAt (c :: rest)) || rePositiveScan (some c) rest

def matchesPositive (s : List Char) : Bool := rePositiveScan none s

/-- The month alternatives of `reAdoptionDate` (form4_tenb51.go:24-32), in
source order: full names, then abbreviations (including `Sept`). -/
def monthTokens : List (List Char) :=
  [chars "January", chars "February", chars "March", chars "April",
   chars "May", chars "June", chars "July", chars "August",
   chars "September", chars "October", chars "November", chars "December",
   chars "Jan", chars "Feb", chars "Mar", chars "Apr", chars "May",
   chars "Jun", chars "Jul", chars "Aug", chars "Sep", chars "Sept",
   chars "Oct", chars "Nov", chars "Dec"]

/-- First date alternative `MONTH\s+\d{1,2},\s+\d{4}` for one month token;
returns the captured text.  (`\d{1,2}` is greedy; backing off to one digit
cannot make the following `,` match another digit, so the digit run must
have length 1 or 2 followed by `,`.) -/
def dayFormAfter (m : List Char) (s : List Char) : Option (List Char) :=
  if startsWithCI m s then
    let r1 := s.drop m.length
    let sp := r1.takeWhile isReSpace
    if sp.isEmpty then none
    else
      let r2 := r1.drop sp.length
      let ds := r2.takeWhile Char.isDigit
      if ds.isEmpty ∨ 2 < ds.length then none
      else
        match r2.drop ds.length with
        | ',' :: r3 =>
          let sp2 := r3.takeWhile isReSpace
          if sp2.isEmpty then none
          else
            let r4 := r3.drop sp2.length
            let ys := r4.takeWhile Char.isDigit
            if ys.length < 4 then none
            else some (s.take (m.length + sp.length + ds.length + 1 + sp2.length + 4))
        | _ => none
  else none

/-- Second date alternative `MONTH\s+\d{4}`. -/
def yearFormAfter (m : List Char) (s : List Char) : Option (List Char) :=
  if startsWithCI m s then
    let r1 := s.drop m.length
    let sp := r1.takeWhile isReSpace
    if sp.isEmpty then none
    else
      let r2 := r1.drop sp.length
      let ys := r2.takeWhile Char.isDigit
      if ys.length < 4 then none
      else some (s.take (m.length + sp.length + 4))
  else none

/-- The date group of `reAdoptionDate`: the day form over all month
alternatives first (the backtracking order of the alternation), then the
month-year form. -/
def dateGroupAfter (s : List Char) : Option (List Char) :=
  match monthTokens.findSome? (fun m => dayFormAfter m s) with
  | some cap => some cap
  | none => monthTokens.findSome? (fun m => yearFormAfter m s)

/-- `(on|in)\s+DATE` at the head of `s` (the `\b` before `on|in` is
checked by the caller). -/
def onInDateAt (s : List Char) : Option (List Char) :=
  let tryWord := fun (w : List Char) =>
    if startsWithCI w s then
      let r := s.drop w.length
      let sp := r.takeWhile isReSpace
      if sp.isEmpty then none else dateGroupAfter (r.drop sp.length)
    else none
  match tryWord (chars "on") with
  | some cap => some cap
  | none => tryWord (chars "in")

/-- The lazy `.*?\b(on|in)\s+DATE` search: advance over non-newline
characters (`.` does not match `\n`) to the earliest position where
`\b(on|in)\s+DATE` matches. -/
def scanOnIn (prevIsWord : Bool) : List Char → Option (List Char)
  | [] => none
  | c :: rest =>
    match (if !prevIsWord then onInDateAt (c :: rest) else none) with
    | some cap => some cap
    | none => if c = '\n' then none else scanOnIn (isWordCharRe c) rest

/-- The keyword group `(adopted|established|entered\s+into)` at the head
of `s` (alternatives are mutually exclusive at any one position). -/
def keywordAfter (s : List Char) : Option (List Char) :=
  match matchWordSeq [chars "adopted"] s with
  | some r => some r
  | none =>
    match matchWordSeq [chars "established"] s with
    | some r => some r
    | none => matchWordSeq [chars "entered", chars "into"] s

/-- The scan of `reAdoptionDate` (form4_tenb51.go:24-32): leftmost
position with `\b` and a keyword, from which the lazy gap reaches an
`(on|in)\s+DATE`; the returned text is capture group 3 (the date). -/
def findAdoptionFrom : Option Char → List Char → Option (List Char)
  | _, [] => none
  | prev, c :: rest =>
    match (if noWordBefore prev then
             match keywordAfter (c :: rest) with
             | some afterKw => scanOnIn true afterKw
             | none => none
           else none) with
    | some cap => some cap
    | none => findAdoptionFrom (some c) rest

def findAdoptionRaw (s : List Char) : Option (List Char) :=
  findAdoptionFrom none s

/-! ### `parseDate` (form4_tenb51.go:37-57): Go `time.Parse` over the six
layouts, returning ISO `YYYY-MM-DD`. -/

/-- Go's month-name lookup: first name that is a case-insensitive prefix
of the value wins; months are numbered from 1. -/
def lookupMonthAux : ℕ → List (List Char) → List Char → Option (ℕ × List Char)
  | _, [], _ => none
  | i, n :: ns, s =>
    if startsWithCI n s then some (i + 1, s.drop n.length)
    else lookupMonthAux (i + 1) ns s

def longMonthNames : List (List Char) :=
  [chars "January", chars "February", chars "March", chars "April",
   chars "May", chars "June", chars "July", chars "August",
   chars "September", chars "October", chars "November", chars "December"]

def shortMonthNames : List (List Char) :=
  [chars "Jan", chars "Feb", chars "Mar", chars "Apr", chars "May",
   chars "Jun", chars "Jul", chars "Aug", chars "Sep", chars "Oct",
   chars "Nov", chars "Dec"]

def lookupLongMonth (s : List Char) : Option (ℕ × List Char) :=
  lookupMonthAux 0 longMonthNames s

def lookupShortMonth (s : List Char) : Option (ℕ × List Char) :=
  lookupMonthAux 0 shortMonthNames s

/-- Go layout element `2` (day): one or two digits. -/
def getNum2 (s : List Char) : Option (ℕ × List Char) :=
  match s with
  | [] => none
  | c1 :: rest =>
    if c1.isDigit then
      match rest with
      | c2 :: rest2 =>
        if c2.isDigit then some (digitsToNat [c1, c2], rest2)
        else some (digitsToNat [c1], rest)
      | [] => some (digitsToNat [c1], [])
    else none

/-- Go layout element `2006` (year): exactly four digits. -/
def getNum4 (s : List Char) : Option (ℕ × List Char) :=
  match s with
  | c1 :: c2 :: c3 :: c4 :: rest =>
    if c1.isDigit && c2.isDigit && c3.isDigit && c4.isDigit then
      some (digitsToNat [c1, c2, c3, c4], rest)
    else none
  | _ => none

def expectChar (c : Char) (s : List Char) : Option (List Char) :=
  match s with
  | [] => none
  | c' :: r => if c' = c then some r else none

/-- Layouts `January 2, 2006` / `Jan 2, 2006`: month, space, day, comma,
space, year, end of input; Go validates the day against the month. -/
def layoutMonthDayYear (monthLookup : List Char → Option (ℕ × List Char))
    (s : List Char) : Option (ℕ × ℕ × ℕ) := do
  let (m, r1) ← monthLookup s
  let r2 ← expectChar ' ' r1
  let (d, r3) ← getNum2 r2
  let r4 ← expectChar ',' r3
  let r5 ← expectChar ' ' r4
  let (y, r6) ← getNum4 r5
  if r6.isEmpty ∧ 1 ≤ d ∧ d ≤ daysInMonth m y then some (y, m, d) else none

/-- Layouts `January, 2006` / `Jan, 2006`: month, comma, space, year; the
day defaults to 1. -/
def layoutMonthCommaYear (monthLookup : List Char → Option (ℕ × List Char))
    (s : List Char) : Option (ℕ × ℕ × ℕ) := do
  let (m, r1) ← monthLookup s
  let r2 ← expectChar ',' r1
  let r3 ← expectChar ' ' r2
  let (y, r4) ← getNum4 r3
  if r4.isEmpty then some (y, m, 1) else none

/-- Layouts `January 2006` / `Jan 2006`: month, space, year; the day
defaults to 1. -/
def layoutMonthYear (monthLookup : List Char → Option (ℕ × List Char))
    (s : List Char) : Option (ℕ × ℕ × ℕ) := do
  let (m, r1) ← monthLookup s
  let r2 ← expectChar ' ' r1
  let (y, r3) ← getNum4 r2
  if r3.isEmpty then some (y, m, 1) else none

/-- The six layouts of `parseDate`, tried in source order. -/
def parseDateLayouts (t : List Char) : Option (ℕ × ℕ × ℕ) :=
  match layoutMonthDayYear lookupLongMonth t with
  | some ymd => some ymd
  | none =>
    match layoutMonthDayYear lookupShortMonth t with
    | some ymd => some ymd
    | none =>
      match layoutMonthCommaYear lookupLongMonth t with
      | some ymd => some ymd
      | none =>
        match layoutMonthCommaYear lookupShortMonth t with
        | some ymd => some ymd
        | none =>
          match layoutMonthYear lookupLongMonth t with
          | some ymd => some ymd
          | none => layoutMonthYear lookupShortMonth t

/-- `parseDate` (form4_tenb51.go:37-57): trim, try the six layouts, format
as ISO `YYYY-MM-DD`; `none` when no layout parses. -/
def parseDateGo (raw : List Char) : Option (List Char) :=
  (parseDateLayouts (trimSpaceGo raw)).map formatISO

/-- `TenB51Result` (form4_tenb51.go:10-13). -/
structure TenB51Result where
  is10b51Plan : Bool
  tenB51AdoptionDate : Option (List Char)
  deriving DecidableEq

/-- `Extract10b51` (form4_tenb51.go:61-87): 10b5-1 mention, positive
language, then adoption-date extraction. -/
def Extract10b51 (text : List Char) : TenB51Result :=
  if !matches10b51 text then ⟨false, none⟩
  else if !matchesPositive text then ⟨false, none⟩
  else ⟨true, (findAdoptionRaw text).bind parseDateGo⟩

/-- `Footnote` of the Form 4 schema. -/
structure Footnote where
  id : List Char
  text : List Char
  deriving DecidableEq

/-- The fields of `Form4` consumed by `Parse10b51Footnotes` and the
remarks gate of `ToOutput` (the full Go struct carries the whole parsed
ownership document — issuer, owners, transaction tables, signatures —
which these functions never read). -/
structure Form4 where
  aff10b5One : Bool
  remarks : List Char
  footnotes : List Footnote
  deriving DecidableEq

/-- Go map insertion `m[k] = v`: replace the entry when the key exists,
else add it. -/
def mapUpsert (m : List (List Char × List Char)) (k v : List Char) :
    List (List Char × List Char) :=
  if m.any (fun kv => kv.1 = k) then
    m.map (fun kv => if kv.1 = k then (k, v) else kv)
  else m ++ [(k, v)]

/-- Go map lookup `m[k]` (`none` when absent). -/
def mapLookup (m : List (List Char × List Char)) (k : List Char) :
    Option (List Char) :=
  (m.find? (fun kv => kv.1 = k)).map Prod.snd

/-- Go map read `m[k]` with the zero-value default `""`. -/
def mapLookupD (m : List (List Char × List Char)) (k : List Char) : List Char :=
  (mapLookup m k).getD []

/-- The footnote loop of `Parse10b51Footnotes` (form4_tenb51.go:100-111)
as one step. -/
def tenb51Step (m : List (List Char × List Char)) (fn : Footnote) :
    List (List Char × List Char) :=
  let analysis := Extract10b51 fn.text
  if analysis.is10b51Plan then
    mapUpsert m fn.id (analysis.tenB51AdoptionDate.getD [])
  else m

/-- `Parse10b51Footnotes` (form4_tenb51.go:97-126): footnote IDs (and the
reserved key `__REMARKS__`) mapped to adoption dates (empty string when a
10b5-1 text carries no extractable date).  The embedding represents the Go
map as an association list with insertion-order iteration; the properties
proved below do not depend on the iteration order Go would use. -/
def Parse10b51Footnotes (f : Form4) : List (List Char × List Char) :=
  let m := f.footnotes.foldl tenb51Step []
  if f.remarks ≠ [] then
    let analysis := Extract10b51 f.remarks
    if analysis.is10b51Plan then
      mapUpsert m (chars "__REMARKS__") (analysis.tenB51AdoptionDate.getD [])
    else m
  else m

/-- The remarks-globalization gate computed inside `ToOutput`
(form4_output.go:513-520): `aff10b5One` is set, no key other than
`__REMARKS__` is in the 10b5-1 map, and the `__REMARKS__` entry is a
non-empty date string. -/
def useRemarksGlobal (f : Form4) : Bool :=
  let tenb51Map := Parse10b51Footnotes f
  let has10b51Footnotes := tenb51Map.any (fun kv => kv.1 ≠ chars "__REMARKS__")
  f.aff10b5One && !has10b51Footnotes &&
    (mapLookupD tenb51Map (chars "__REMARKS__") ≠ [])

theorem any_key_mapUpsert (m : List (List Char × List Char))
    (k v : List Char) (q : List Char × List Char → Bool)
    (hq : ∀ a b b', q (a, b) = q (a, b')) :
    (mapUpsert m k v).any q = (m.any q || q (k, v)) := by
  rw [mapUpsert]
  by_cases hk : m.any (fun kv => kv.1 = k) = true
  · rw [if_pos hk, List.any_map]
    have hfun : (q ∘ fun kv : List Char × List Char =>
        if kv.1 = k then (k, v) else kv) = q := by
      funext kv
      rcases kv with ⟨a, b⟩
      by_cases hkv : a = k
      · subst hkv
        simp only [Function.comp_apply, if_pos rfl]
        exact hq a v b
      · simp [Function.comp_apply, hkv]
    rw [hfun]
    cases hqk : q (k, v)
    · simp
    · rcases List.any_eq_true.1 hk with ⟨⟨a, b⟩, hmem, hkv⟩
      have ha : a = k := by simpa using hkv
      subst ha
      have hany : m.any q = true :=
        List.any_eq_true.2 ⟨(a, b), hmem, by rw [hq a b v, hqk]⟩
      simp [hany]
  · rw [if_neg hk, List.any_append]
    simp

theorem mapUpsert_eq_append (m : List (List Char × List Char)) (k v : List Char)
    (hk : m.any (fun kv => kv.1 = k) = false) :
    mapUpsert m k v = m ++ [(k, v)] := by
  rw [mapUpsert, if_neg (by rw [hk]; simp)]

theorem mapLookup_append_self (m : List (List Char × List Char)) (k v : List Char)
    (hk : m.any (fun kv => kv.1 = k) = false) :
    mapLookup (m ++ [(k, v)]) k = some v := by
  rw [mapLookup, List.find?_append]
  have h1 : m.find? (fun kv => kv.1 = k) = none := by
    rw [List.find?_eq_none]
    intro kv hkv
    have := (List.any_eq_false.1 hk) kv hkv
    simpa using this
  rw [h1]
  simp [List.find?]

theorem mapLookup_upsert_ne (m : List (List Char × List Char))
    (k v k' : List Char) (h : k' ≠ k) :
    mapLookup (mapUpsert m k v) k' = mapLookup m k' := by
  rw [mapUpsert]
  by_cases hk : m.any (fun kv => kv.1 = k) = true
  · rw [if_pos hk, mapLookup, List.find?_map]
    have hpg : ((fun kv : List Char × List Char => decide (kv.1 = k')) ∘
        fun kv => if kv.1 = k then (k, v) else kv) =
        fun kv : List Char × List Char => decide (kv.1 = k') := by
      funext kv
      rcases kv with ⟨a, b⟩
      by_cases hkv : a = k
      · subst hkv
        simp [Function.comp_apply]
      · simp [Function.comp_apply, hkv]
    rw [hpg, mapLookup]
    cases hfind : m.find? (fun kv => decide (kv.1 = k')) with
    | none => rfl
    | some kv =>
      rcases kv with ⟨a, b⟩
      have ha : a = k' := by simpa using List.find?_some hfind
      subst ha
      simp [h]
  · rw [if_neg hk, mapLookup, List.find?_append, mapLookup]
    have h0 : List.find? (fun kv : List Char × List Char => decide (kv.1 = k'))
        [(k, v)] = none := by
      have hkk : (decide (k = k')) = false := decide_eq_false (Ne.symm h)
      simp [List.find?, hkk]
    rw [h0]
    cases m.find? (fun kv : List Char × List Char => decide (kv.1 = k')) <;> rfl

/-- Keys added by the footnote loop are footnote IDs. -/
theorem tenb51_foldl_no_remarks_key (fns : List Footnote) :
    ∀ m₀ : List (List Char × List Char),
      (∀ fn ∈ fns, fn.id ≠ chars "__REMARKS__") →
      m₀.any (fun kv => kv.1 = chars "__REMARKS__") = false →
      (fns.foldl tenb51Step m₀).any (fun kv => kv.1 = chars "__REMARKS__") = false := by
  induction fns with
  | nil => intro m₀ _ h0; exact h0
  | cons fn fns ih =>
    intro m₀ hids h0
    rw [List.foldl_cons]
    refine ih _ (fun g hg => hids g (List.mem_cons_of_mem _ hg)) ?_
    rw [tenb51Step]
    by_cases hp : (Extract10b51 fn.text).is10b51Plan = true
    · rw [if_pos hp, any_key_mapUpsert _ _ _
        (fun kv => kv.1 = chars "__REMARKS__") (fun a b b' => rfl), h0]
      simp [hids fn (List.mem_cons_self ..)]
    · rw [if_neg hp]
      exact h0

/-- The footnote loop registers a non-`__REMARKS__` key exactly when some
footnote classifies positively. -/
theorem tenb51_foldl_any_ne (fns : List Footnote) :
    ∀ m₀ : List (List Char × List Char),
      (∀ fn ∈ fns, fn.id ≠ chars "__REMARKS__") →
      (fns.foldl tenb51Step m₀).any (fun kv => kv.1 ≠ chars "__REMARKS__") =
        (m₀.any (fun kv => kv.1 ≠ chars "__REMARKS__") ||
          fns.any (fun fn => (Extract10b51 fn.text).is10b51Plan)) := by
  induction fns with
  | nil => intro m₀ _; simp
  | cons fn fns ih =>
    intro m₀ hids
    rw [List.foldl_cons, List.any_cons,
      ih _ (fun g hg => hids g (List.mem_cons_of_mem _ hg)), tenb51Step]
    by_cases hp : (Extract10b51 fn.text).is10b51Plan = true
    · rw [if_pos hp, any_key_mapUpsert _ _ _
        (fun kv => kv.1 ≠ chars "__REMARKS__") (fun a b b' => rfl)]
      rw [hp, decide_eq_true (hids fn (List.mem_cons_self ..))]
      simp [Bool.or_assoc, Bool.or_comm]
    · rw [if_neg hp]
      rw [Bool.not_eq_true] at hp
      rw [hp]
      simp

/-- The footnote loop never touches the `__REMARKS__` entry. -/
theorem tenb51_foldl_lookup_remarks (fns : List Footnote) :
    ∀ m₀ : List (List Char × List Char),
      (∀ fn ∈ fns, fn.id ≠ chars "__REMARKS__") →
      mapLookup (fns.foldl tenb51Step m₀) (chars "__REMARKS__") =
        mapLookup m₀ (chars "__REMARKS__") := by
  induction fns with
  | nil => intro m₀ _; rfl
  | cons fn fns ih =>
    intro m₀ hids
    rw [List.foldl_cons, ih _ (fun g hg => hids g (List.mem_cons_of_mem _ hg)),
      tenb51Step]
    by_cases hp : (Extract10b51 fn.text).is10b51Plan = true
    · rw [if_pos hp,
        mapLookup_upsert_ne _ _ _ _ (fun he => hids fn (List.mem_cons_self ..) he.symm)]
    · rw [if_neg hp]

theorem formatISO_ne_nil (ymd : ℕ × ℕ × ℕ) : formatISO ymd ≠ [] := by
  intro h
  have hlen := congrArg List.length h
  rw [formatISO] at hlen
  simp only [List.length_append, List.length_nil,
    show (chars "-").length = 1 from rfl] at hlen
  omega

theorem parseDateGo_ne_nil (r dd : List Char) (h : parseDateGo r = some dd) :
    dd ≠ [] := by
  rw [parseDateGo] at h
  rcases Option.map_eq_some'.1 h with ⟨ymd, _, rfl⟩
  exact formatISO_ne_nil ymd

theorem extract_date_ne_nil (t dd : List Char)
    (h : (Extract10b51 t).tenB51AdoptionDate = some dd) : dd ≠ [] := by
  rw [Extract10b51] at h
  split at h
  · exact absurd h (by simp)
  · split at h
    · exact absurd h (by simp)
    · rcases Option.bind_eq_some.1 h with ⟨raw, _, hp⟩
      exact parseDateGo_ne_nil raw dd hp

/-- Counterexample input for C1: `aff10b5One` set, no footnotes, and a
remarks text the 10b5-1 classifier accepts but from which no adoption date
can be extracted. -/
def c1Form : Form4 :=
  ⟨true, chars "Sales effected pursuant to a Rule 10b5-1 trading plan.", []⟩

/-- C1 counterexample: on `c1Form` every condition of the claim holds —
`aff10b5One` is true, no footnote classifies positively (there are none),
and the remarks classify positively — yet `useRemarksGlobal` is false,
because the remarks carry no extractable adoption date and the gate
additionally requires the `__REMARKS__` map entry to be a non-empty date
string. -/
theorem useRemarksGlobal_cex :
    c1Form.aff10b5One = true ∧
    c1Form.footnotes.all (fun fn => !(Extract10b51 fn.text).is10b51Plan) = true ∧
    (Extract10b51 c1Form.remarks).is10b51Plan = true ∧
    useRemarksGlobal c1Form = false := by
  decide

/-- C1 (amended): when no footnote carries the reserved ID `__REMARKS__`
(it never does: the ID comes from the XML `id` attribute `F1`, `F2`, …),
the gate `use_remarks_global` is true iff `aff10b5One` is true, no footnote
classifies positively, the remarks are non-empty and classify positively,
AND the classifier extracts an adoption date from the remarks.  The claim
omits the final adoption-date requirement. -/
theorem useRemarksGlobal_iff (f : Form4)
    (hids : ∀ fn ∈ f.footnotes, fn.id ≠ chars "__REMARKS__") :
    useRemarksGlobal f = true ↔
      (f.aff10b5One = true ∧
       (∀ fn ∈ f.footnotes, (Extract10b51 fn.text).is10b51Plan = false) ∧
       f.remarks ≠ [] ∧
       (Extract10b51 f.remarks).is10b51Plan = true ∧
       (Extract10b51 f.remarks).tenB51AdoptionDate ≠ none) := by
  have hA := tenb51_foldl_any_ne f.footnotes [] hids
  have hB := tenb51_foldl_no_remarks_key f.footnotes [] hids rfl
  have hL := tenb51_foldl_lookup_remarks f.footnotes [] hids
  have hmL : mapLookupD (f.footnotes.foldl tenb51Step []) (chars "__REMARKS__")
      = [] := by
    rw [mapLookupD, hL]
    rfl
  simp only [useRemarksGlobal, Parse10b51Footnotes]
  by_cases hrem : f.remarks = []
  · simp [hrem, hmL]
  · rw [if_pos hrem]
    by_cases hpos : (Extract10b51 f.remarks).is10b51Plan = true
    · rw [if_pos hpos,
        mapUpsert_eq_append _ _ _ hB,
        mapLookupD, mapLookup_append_self _ _ _ hB,
        List.any_append]
      have hd : ((Extract10b51 f.remarks).tenB51AdoptionDate.getD [] ≠ []) ↔
          (Extract10b51 f.remarks).tenB51AdoptionDate ≠ none := by
        cases hdd : (Extract10b51 f.remarks).tenB51AdoptionDate with
        | none => simp
        | some dd => simp [extract_date_ne_nil f.remarks dd hdd]
      rw [hA]
      simp [hrem, hpos, hd, Bool.and_eq_true, List.any_eq_false, and_assoc]
    · rw [if_neg hpos]
      simp [hrem, hpos, hmL]

/-- Witness input for the amended C1 gate: positively classified remarks
with an extractable adoption date. -/
def c1WitnessForm : Form4 :=
  ⟨true,
   chars "Shares sold pursuant to a Rule 10b5-1 plan adopted on March 13, 2025.",
   []⟩

theorem useRemarksGlobal_iff_witness : useRemarksGlobal c1WitnessForm = true :=
  (useRemarksGlobal_iff c1WitnessForm (by simp [c1WitnessForm])).2
    ⟨rfl, by simp [c1WitnessForm], by decide, by decide, by decide⟩

end Edgar
